import Mathlib

/-!
# Selection and aggregation core of the two dashboards

A shallow embedding of the state-changing and aggregating code of

* `src/Homework3/yrui/main.js` (scatter plot with click / brush selection,
  the mental-health averages, the info box and the row filter of the loader),
  and
* `src/Homework2/yrui/main.js` (drinkers per age, alcohol use per guardian).

JavaScript numbers are modelled by `JSNum`: a finite value, held as the
rational it denotes, or one of the three non-finite values.  The operators `+`
and `/` round their result to the nearest binary64 value, ties to even, as
JavaScript does, so a sum depends on the order of its terms; comparisons with
`NaN` fail and `0 / 0` is `NaN`.  The sign of zero is not modelled, and the
linear scales of d3 are kept exact.
-/

/-! ## JavaScript numbers -/

/-- A JavaScript number: a finite value, `NaN`, `Infinity` or `-Infinity`. -/
inductive JSNum where
  | fin (q : ℚ)
  | nan
  | posInf
  | negInf
  deriving DecidableEq

namespace JSNum

/-- The position of the leading binary digit of `n`, by halving at most `fuel`
times. -/
def log2Fuel : ℕ → ℕ → ℕ
  | 0, _ => 0
  | fuel + 1, n => if n < 2 then 0 else log2Fuel fuel (n / 2) + 1

/-- The position of the leading binary digit of `n`: the greatest `e` with
`2 ^ e ≤ n`, and 0 for `n = 0`. -/
def log2Floor (n : ℕ) : ℕ := log2Fuel n n

/-- The binary64 value nearest to `q`, ties to even: the value JavaScript
stores for a result whose exact value is `q`.  With `2 ^ e` the power of two
at or below the magnitude of `q` (and `e` at least `-1022`, where the
subnormals begin), the result is the multiple of `2 ^ (e - 52)` nearest to
`q`; it is an infinity once that multiple reaches `2 ^ 1024`. -/
def round (q : ℚ) : JSNum :=
  if q = 0 then fin 0
  else
    let a : ℕ := q.num.natAbs
    let d : ℕ := q.den
    let e0 : ℤ := (log2Floor a : ℤ) - (log2Floor d : ℤ)
    let e : ℤ := if d * 2 ^ e0.toNat ≤ a * 2 ^ (-e0).toNat then e0 else e0 - 1
    let k : ℤ := max e (-1022) - 52
    let N : ℕ := a * 2 ^ (-k).toNat
    let D : ℕ := d * 2 ^ k.toNat
    let n0 : ℕ := N / D
    let r : ℕ := N % D
    let n : ℕ :=
      if 2 * r < D then n0
      else if D < 2 * r then n0 + 1
      else if n0 % 2 = 0 then n0 else n0 + 1
    if 2 ^ 1024 * 2 ^ (-k).toNat ≤ n * 2 ^ k.toNat then
      (if 0 < q then posInf else negInf)
    else
      fin (mkRat ((if 0 < q then 1 else -1) * ((n * 2 ^ k.toNat : ℕ) : ℤ)) (2 ^ (-k).toNat))

/-- The `+` of two numbers: the exact sum of two finite values, rounded. -/
def add : JSNum → JSNum → JSNum
  | fin a, fin b => round (a + b)
  | nan, _ => nan
  | _, nan => nan
  | posInf, negInf => nan
  | negInf, posInf => nan
  | posInf, _ => posInf
  | _, posInf => posInf
  | negInf, _ => negInf
  | _, negInf => negInf

/-- The `/` of two numbers: the exact quotient of two finite values, rounded;
`0 / 0` is `NaN`, and a non-zero value over zero is an infinity. -/
def div : JSNum → JSNum → JSNum
  | fin a, fin b =>
    if b = 0 then (if a = 0 then nan else if 0 < a then posInf else negInf)
    else round (a / b)
  | nan, _ => nan
  | _, nan => nan
  | fin _, posInf => fin 0
  | fin _, negInf => fin 0
  | posInf, fin b => if 0 ≤ b then posInf else negInf
  | negInf, fin b => if 0 ≤ b then negInf else posInf
  | posInf, posInf => nan
  | posInf, negInf => nan
  | negInf, posInf => nan
  | negInf, negInf => nan

/-- The comparison `a <= b`; false as soon as one side is `NaN`. -/
def le : JSNum → JSNum → Bool
  | fin a, fin b => decide (a ≤ b)
  | nan, _ => false
  | _, nan => false
  | negInf, _ => true
  | _, posInf => true
  | _, _ => false

/-- The comparison `a >= b`, which is `b <= a`. -/
def ge (a b : JSNum) : Bool := le b a

/-- The test `isNaN`. -/
def isNaN : JSNum → Bool
  | nan => true
  | _ => false

end JSNum

namespace Homework3

/-! ## Data model of `Homework3/yrui/main.js` -/

/-- One object pushed by `generateSyntheticData`: the id, the numeric fields
and the three categorical names.  (`genreFrequencies`, an object of names, is
never read by the code modelled here.) -/
structure Record where
  id : Nat
  age : ℚ
  hoursPerDay : ℚ
  service : String
  anxiety : ℚ
  depression : ℚ
  insomnia : ℚ
  ocd : ℚ
  musicEffect : String
  favGenre : String
  deriving DecidableEq

/-- The number a computation sees when it reads `d[key]`: the value of a
numeric field, and `NaN` for every other key (a missing property, or one of
the categorical names, none of which is a numeral). -/
def Record.get (d : Record) (key : String) : JSNum :=
  if key = "id" then JSNum.fin d.id
  else if key = "age" then JSNum.fin d.age
  else if key = "hoursPerDay" then JSNum.fin d.hoursPerDay
  else if key = "anxiety" then JSNum.fin d.anxiety
  else if key = "depression" then JSNum.fin d.depression
  else if key = "insomnia" then JSNum.fin d.insomnia
  else if key = "ocd" then JSNum.fin d.ocd
  else JSNum.nan

/-- A circle of class `data-point`: the record bound to it and whether it
carries the class `selected`. -/
structure Point where
  datum : Record
  selected : Bool
  deriving DecidableEq

/-- The brush selection `[[x0, y0], [x1, y1]]`, in pixels. -/
structure Rect where
  x0 : ℚ
  y0 : ℚ
  x1 : ℚ
  y1 : ℚ
  deriving DecidableEq

/-- The globals of the script together with the part of the page they are
kept in step with: the circles of the scatter plot in document order and the
two scales saved on `window` by `setupOverviewChart`. -/
structure State where
  data : List Record
  selectedData : List Record
  currentMetric : String
  points : List Point
  overviewXScale : JSNum → JSNum
  overviewYScale : JSNum → JSNum

/-! ## The scales of `setupOverviewChart` -/

/-- The `d3.max(values)` of finite numbers: `none` (undefined) on an empty
array. -/
def d3max : List ℚ → Option ℚ
  | [] => none
  | x :: xs =>
    match d3max xs with
    | none => some x
    | some m => some (if m < x then x else m)

/-- The `d3.scaleLinear().domain([d0, d1]).range([r0, r1])` applied to `x`: it
is undefined on `NaN`, maps every input to the middle of the range when the
domain is a single point, and does not clamp. -/
def scaleLinear (d0 d1 r0 r1 : ℚ) : JSNum → JSNum
  | JSNum.fin x =>
    let t := if d1 - d0 = 0 then 1 / 2 else (x - d0) / (d1 - d0)
    JSNum.fin (r0 * (1 - t) + r1 * t)
  | _ => JSNum.nan

/-- The drawing width of the overview chart, `600 - 60 - 20`. -/
def overviewWidth : ℚ := 600 - 60 - 20

/-- The drawing height of the overview chart, `400 - 20 - 60`. -/
def overviewHeight : ℚ := 400 - 20 - 60

/-- The `xScale` of `setupOverviewChart`: domain `[0, d3.max(data, d =>
d.hoursPerDay)]`, range `[0, width]`.  On an empty dataset the domain ends in
undefined and the scale yields `NaN` everywhere. -/
def setupXScale (data : List Record) : JSNum → JSNum :=
  match d3max (data.map Record.hoursPerDay) with
  | none => fun _ => JSNum.nan
  | some m => scaleLinear 0 m 0 overviewWidth

/-- The `yScale` of `setupOverviewChart`: domain `[0, 10]`, range
`[height, 0]`. -/
def setupYScale : JSNum → JSNum := scaleLinear 0 10 overviewHeight 0

/-! ## The operations on the selection -/

/-- The state `initDashboard` leaves, given the array `generateSyntheticData`
returned: everything selected, the metric still `anxiety`, one unflagged
circle entered per record by `updateOverviewChart`. -/
def initDashboard (synthetic : List Record) : State where
  data := synthetic
  selectedData := synthetic
  currentMetric := "anxiety"
  points := synthetic.map fun d => { datum := d, selected := false }
  overviewXScale := setupXScale synthetic
  overviewYScale := setupYScale

/-- Removes the class `selected` from every circle:
`d3.selectAll(".data-point").classed("selected", false)`. -/
def clearFlags (points : List Point) : List Point :=
  points.map fun p => { p with selected := false }

/-- The callback `brushed` passes to `classed`: is the circle of `d` inside
the brush? -/
def insideBrush (s : State) (r : Rect) (d : Record) : Bool :=
  let x := s.overviewXScale (JSNum.fin d.hoursPerDay)
  let y := s.overviewYScale (d.get s.currentMetric)
  JSNum.ge x (JSNum.fin r.x0) && JSNum.le x (JSNum.fin r.x1) &&
    JSNum.ge y (JSNum.fin r.y0) && JSNum.le y (JSNum.fin r.y1)

/-- One call of the `classed` callback in `brushed`: the circle is flagged
with the test, and its record is pushed on `selectedData` when it passes. -/
def brushStep (s : State) (r : Rect) (acc : List Record × List Point) (p : Point) :
    List Record × List Point :=
  let selected := insideBrush s r p.datum
  (if selected then acc.1 ++ [p.datum] else acc.1,
   acc.2 ++ [{ p with selected := selected }])

/-- The handler `brushed`, with `event.selection` either `null` (`none`) or a
rectangle. -/
def brushed (s : State) (selection : Option Rect) : State :=
  match selection with
  | none => { s with selectedData := s.data, points := clearFlags s.points }
  | some r =>
    let out := s.points.foldl (brushStep s r) ([], [])
    { s with selectedData := out.1, points := out.2 }

/-- The handler `pointClicked` for a click on the `i`-th circle (`this`), whose
bound record is `d`.  There is no event when there is no such circle. -/
def pointClicked (s : State) (i : Nat) : State :=
  match s.points.get? i with
  | none => s
  | some p =>
    let d := p.datum
    if p.selected then
      { s with
        points := s.points.set i { p with selected := false }
        selectedData := s.selectedData.filter fun item => item.id != d.id }
    else
      { s with
        points := s.points.set i { p with selected := true }
        selectedData :=
          if (s.selectedData.find? fun item => item.id == d.id).isSome then s.selectedData
          else s.selectedData ++ [d] }

/-- The function `clearSelection`: it resets the selection and the flags, then
moves the brush to `null`, on which the brush calls `brushed` with no
selection. -/
def clearSelection (s : State) : State :=
  brushed { s with selectedData := s.data, points := clearFlags s.points } none

/-- The function `updateMentalHealthMetric`: only `currentMetric` is
assigned; `updateOverviewChart` then moves the existing circles. -/
def updateMentalHealthMetric (s : State) (metric : String) : State :=
  { s with currentMetric := metric }

/-- The circles on the page are those of `data`, in order: what
`updateOverviewChart` establishes and every handler keeps. -/
def Rendered (s : State) : Prop :=
  s.points.map Point.datum = s.data

/-! ## The averages of `updateMentalHealthChart` -/

/-- The array `metrics` of `updateMentalHealthChart`. -/
def metrics : List String := ["anxiety", "depression", "insomnia", "ocd"]

/-- The label `metric.charAt(0).toUpperCase() + metric.slice(1)`. -/
def capitalized (metric : String) : String :=
  match metric.data with
  | [] => ""
  | c :: cs => String.mk (c.toUpper :: cs)

/-- The `selectedData.reduce((sum, d) => sum + d[metric], 0)` of
`updateMentalHealthChart`. -/
def metricSum (selectedData : List Record) (metric : String) : JSNum :=
  selectedData.foldl (fun sum d => JSNum.add sum (d.get metric)) (JSNum.fin 0)

/-- The array `avgData` of `updateMentalHealthChart`: for each metric, its
label and the sum of the field over `selectedData` divided by
`selectedData.length`. -/
def avgData (selectedData : List Record) : List (String × JSNum) :=
  metrics.map fun metric =>
    let avg := JSNum.div (metricSum selectedData metric) (JSNum.fin selectedData.length)
    (capitalized metric, avg)

/-- The sum JavaScript computes for the numbers `xs` added one by one from 0,
left to right, each partial sum rounded. -/
def floatSum (xs : List ℚ) : JSNum :=
  xs.foldl (fun sum x => JSNum.add sum (JSNum.fin x)) (JSNum.fin 0)

/-- The mean JavaScript computes for the numbers `xs`: their `floatSum` divided
by their number, the quotient rounded. -/
def floatMean (xs : List ℚ) : JSNum :=
  JSNum.div (floatSum xs) (JSNum.fin xs.length)

/-! ## Sample data -/

/-- A generated record with the given id, listening hours and one score used
for all four metrics. -/
def person (id : Nat) (hours score : ℚ) : Record where
  id := id
  age := 20
  hoursPerDay := hours
  service := "Spotify"
  anxiety := score
  depression := score
  insomnia := score
  ocd := score
  musicEffect := "Improve"
  favGenre := "Rock"

/-- Three records with scores 2, 4 and 6. -/
def sampleData : List Record := [person 0 1 2, person 1 2 4, person 2 4 6]

/-- Three records with scores 1, 1 and 2, whose mean 4/3 is no binary64
value. -/
def thirdsSample : List Record := [person 0 1 1, person 1 2 1, person 2 4 2]

/-- Three records whose scores are the binary64 values written `0.1`, `0.2`
and `0.3`. -/
def decimalSample : List Record :=
  [person 0 1 (3602879701896397 / 36028797018963968),
   person 1 2 (3602879701896397 / 18014398509481984),
   person 2 4 (5404319552844595 / 18014398509481984)]

/-- Four records with scores 8, `2 ^ -50`, `2 ^ -50` and 0, all of them binary64
values: added in this order the two small scores are lost, added in the
reverse order they are not. -/
def tinySample : List Record :=
  [person 0 1 8, person 1 2 (1 / 1125899906842624), person 2 4 (1 / 1125899906842624),
   person 3 1 0]

/-- The brush covering the whole extent `[[0, 0], [width, height]]`. -/
def wholeExtent : Rect where
  x0 := 0
  y0 := 0
  x1 := overviewWidth
  y1 := overviewHeight

/-- The sample dashboard after a brush over `[100, 300] x [150, 300]`, which
holds the circles of the first two sample records. -/
def brushedSample : State :=
  brushed (initDashboard sampleData) (some ⟨100, 150, 300, 300⟩)

/-- Every record lies in the domains of the two scales: the hours are not
negative and the active metric reads a score between 0 and 10, as in the
records `generateSyntheticData` builds. -/
def InDomain (s : State) : Prop :=
  ∀ d ∈ s.data, 0 ≤ d.hoursPerDay ∧
    ∃ v : ℚ, d.get s.currentMetric = JSNum.fin v ∧ 0 ≤ v ∧ v ≤ 10

/-! ## The handler body, the info box and the reachable states -/

/-- The body of `pointClicked` for an element `this` that carries the class
`selected` (`isSelected`) or not, and the datum `d` it is called with: the
class the element ends with and the new `selectedData`.  Nothing in it looks
`d` up in `data`, and no path raises an error. -/
def pointClickedOn (selectedData : List Record) (isSelected : Bool) (d : Record) :
    Bool × List Record :=
  if isSelected then
    (false, selectedData.filter fun item => item.id != d.id)
  else
    (true,
      if (selectedData.find? fun item => item.id == d.id).isSome then selectedData
      else selectedData ++ [d])

/-- The function `updateSelectionInfo`: `none` when the box is hidden
(`display = "none"`), and otherwise the text it shows. -/
def updateSelectionInfo (s : State) : Option String :=
  if s.selectedData.length = s.data.length then none
  else
    some ("Selected " ++ toString s.selectedData.length ++ " of " ++
      toString s.data.length ++ " individuals")

/-- The ids `generateSyntheticData` assigns: `id: i`, the loop index.  (The
number of records, 600 in the script, plays no part.) -/
def Generated (synthetic : List Record) : Prop :=
  synthetic.map Record.id = List.range synthetic.length

/-- The states the handlers can lead to from `s0`: clicks on circles, brushes
(a rectangle or none), `clearSelection` and `updateMentalHealthMetric`, in any
number and order. -/
inductive Steps (s0 : State) : State → Prop where
  | start : Steps s0 s0
  | click (s : State) (i : Nat) : Steps s0 s → Steps s0 (pointClicked s i)
  | brush (s : State) (selection : Option Rect) : Steps s0 s → Steps s0 (brushed s selection)
  | clear (s : State) : Steps s0 s → Steps s0 (clearSelection s)
  | metric (s : State) (name : String) :
      Steps s0 s → Steps s0 (updateMentalHealthMetric s name)

/-- The states of the running dashboard: those the handlers lead to from the
state `initDashboard` leaves on generated data. -/
def Reachable (s : State) : Prop :=
  ∃ synthetic, Generated synthetic ∧ Steps (initDashboard synthetic) s

/-- The flags agree with the selection: a circle carries the class `selected`
exactly when its record is in `selectedData`. -/
def Agree (s : State) : Prop :=
  ∀ p ∈ s.points, p.selected = true ↔ p.datum ∈ s.selectedData

/-! ## The row filter of `loadCSVData` -/

/-- A cell of a row parsed by Papa Parse with `dynamicTyping`: absent
(`undefined`), empty (`null`), a number, a string or a boolean. -/
inductive JSValue where
  | undefined
  | null
  | number (n : JSNum)
  | string (s : String)
  | boolean (b : Bool)
  deriving DecidableEq

/-- Is the value truthy?  `undefined`, `null`, `0`, `NaN`, the empty string and
`false` are not. -/
def JSValue.truthy : JSValue → Bool
  | JSValue.undefined => false
  | JSValue.null => false
  | JSValue.number (JSNum.fin q) => decide (q ≠ 0)
  | JSValue.number JSNum.nan => false
  | JSValue.number _ => true
  | JSValue.string s => decide (s ≠ "")
  | JSValue.boolean b => b

/-- The test `v !== null && v !== undefined`. -/
def JSValue.present : JSValue → Bool
  | JSValue.undefined => false
  | JSValue.null => false
  | _ => true

/-- The columns of a parsed row that `loadCSVData` reads. -/
structure Row where
  Age : JSValue
  HoursPerDay : JSValue
  Anxiety : JSValue
  Depression : JSValue
  Insomnia : JSValue
  OCD : JSValue
  MusicEffects : JSValue
  FavGenre : JSValue
  PrimaryStreamingService : JSValue
  deriving DecidableEq

/-- The callback of `.filter` in `loadCSVData`: `Age` and `Hours per day` are
tested for truthiness, the four scores for being neither `null` nor
`undefined`. -/
def rowFilter (row : Row) : Bool :=
  row.Age.truthy && row.HoursPerDay.truthy &&
    row.Anxiety.present && row.Depression.present &&
    row.Insomnia.present && row.OCD.present

/-- In the words of the specification: all six required fields are present
(not `null`, not `undefined`). -/
def allRequiredPresent (row : Row) : Bool :=
  row.Age.present && row.HoursPerDay.present &&
    row.Anxiety.present && row.Depression.present &&
    row.Insomnia.present && row.OCD.present

/-- A survey row with the given age, hours per day and one score for the four
metrics. -/
def surveyRow (age hours score : ℚ) : Row where
  Age := JSValue.number (JSNum.fin age)
  HoursPerDay := JSValue.number (JSNum.fin hours)
  Anxiety := JSValue.number (JSNum.fin score)
  Depression := JSValue.number (JSNum.fin score)
  Insomnia := JSValue.number (JSNum.fin score)
  OCD := JSValue.number (JSNum.fin score)
  MusicEffects := JSValue.string "Improve"
  FavGenre := JSValue.string "Rock"
  PrimaryStreamingService := JSValue.string "Spotify"

end Homework3

namespace Homework2

/-! ## Data model of `Homework2/yrui/main.js` -/

/-- A row of `student-mat.csv` after the coercions at the top of the script:
the six columns turned into numbers (taken to be finite, as numeric cells
are) and the `guardian` column, which stays a string. -/
structure Student where
  age : ℚ
  G3 : ℚ
  Walc : ℚ
  Dalc : ℚ
  studytime : ℚ
  failures : ℚ
  guardian : String
  deriving DecidableEq

/-- The `d3.range(start, stop)` of two integers: `start, start + 1, ...`, up to
but not including `stop`. -/
def d3range (start stop : ℤ) : List ℤ :=
  (List.range (stop - start).toNat).map fun i => start + (i : ℤ)

/-- An object `{ age, count }` of `ageGroups`. -/
structure AgeGroup where
  age : ℤ
  count : ℕ
  deriving DecidableEq

/-- The array `ageGroups` of `drawDrinkerBarByAge`. -/
def ageGroups (data : List Student) : List AgeGroup :=
  (d3range 15 23).map fun (age : ℤ) =>
    let count := (data.filter fun d =>
      decide (d.age = (age : ℚ)) && (decide (d.Walc > 1) || decide (d.Dalc > 1))).length
    { age := age, count := count }

/-! ## The `d3.nest` of `drawPieChartByGuardian` -/

/-- One step of the grouping loop of `d3.nest`: the value joins the group of
its key when the key was seen before, and otherwise opens a new group after
all existing ones (the map keeps insertion order). -/
def nestPush {α : Type} (groups : List (String × List α)) (k : String) (v : α) :
    List (String × List α) :=
  match groups with
  | [] => [(k, [v])]
  | (k', vs) :: rest =>
    if k' = k then (k', vs ++ [v]) :: rest else (k', vs) :: nestPush rest k v

/-- The grouping loop of `d3.nest().key(key)` over `array`. -/
def nestGroups {α : Type} (key : α → String) (array : List α) : List (String × List α) :=
  array.foldl (fun groups v => nestPush groups (key v) v) []

/-- The `d3.sum(values, f)`: the running sum of the values that are truthy,
that is, not zero (a zero adds nothing). -/
def d3sum {α : Type} (values : List α) (f : α → ℚ) : ℚ :=
  values.foldl (fun sum v => if f v ≠ 0 then sum + f v else sum) 0

/-- An object `{ key, value }` returned by `entries` after a rollup. -/
structure Entry where
  key : String
  value : ℚ
  deriving DecidableEq

/-- The array `guardianGroups` of `drawPieChartByGuardian`:
`d3.nest().key(d => d.guardian).rollup(v => d3.sum(v, d => d.Dalc + d.Walc))
.entries(data)`. -/
def guardianGroups (data : List Student) : List Entry :=
  (nestGroups Student.guardian data).map fun g =>
    { key := g.1, value := d3sum g.2 fun d => d.Dalc + d.Walc }

/-- In the words of the specification: the keys in the order in which each
first occurs.  The head comes first, followed by the first occurrences of the
other keys in the tail. -/
def firstSeen : List String → List String
  | [] => []
  | k :: ks => k :: (firstSeen ks).filter fun k' => decide (k' ≠ k)

/-- In the words of the specification: the number of records of age `a` for
which `Walc > 1` or `Dalc > 1`. -/
def drinkersOfAge (data : List Student) (a : ℤ) : ℕ :=
  data.countP fun d => decide (d.age = (a : ℚ) ∧ (1 < d.Walc ∨ 1 < d.Dalc))

/-! ## Sample data -/

/-- A student of the given age, weekend and workday consumption and
guardian. -/
def student (age walc dalc : ℚ) (guardian : String) : Student where
  age := age
  G3 := 10
  Walc := walc
  Dalc := dalc
  studytime := 2
  failures := 0
  guardian := guardian

/-- Ages 15, 16, 16, 17, 22, of which the first, third and fourth drink; the
guardians are other, mother, father, mother, mother. -/
def sampleStudents : List Student :=
  [student 15 2 1 "other", student 16 1 1 "mother", student 16 1 3 "father",
   student 17 4 2 "mother", student 22 1 1 "mother"]

/-- Four students whose guardians are other, mother, father, mother. -/
def sampleGuardians : List Student :=
  [student 15 2 1 "other", student 16 1 1 "mother", student 16 1 3 "father",
   student 17 4 2 "mother"]

/-! ## The pie chart as a step on its input -/

/-- The function `drawPieChartByGuardian`, as far as its argument goes: the
array `data` after the call, which it does not write to, and `guardianGroups`,
whose values the slices and their titles show. -/
def drawPieChartByGuardian (data : List Student) : List Student × List Entry :=
  (data, guardianGroups data)

/-- In the words of the chart title: the average alcohol use of the records
with guardian `k`, the mean of `Dalc + Walc` over them. -/
def averageAlcoholUse (data : List Student) (k : String) : JSNum :=
  let group := data.filter fun d => decide (d.guardian = k)
  JSNum.div (JSNum.fin (group.map fun d => d.Dalc + d.Walc).sum) (JSNum.fin group.length)

end Homework2

/-! # Properties -/

namespace Homework3

/-! ## Brushing -/

/-- The loop of `brushed` over the circles, started from any accumulator:
the records that pass the test are appended in document order, and every
circle is flagged with its own test. -/
theorem foldl_brushStep (s : State) (r : Rect) (pts : List Point)
    (acc : List Record × List Point) :
    pts.foldl (brushStep s r) acc =
      (acc.1 ++ (pts.map Point.datum).filter (insideBrush s r),
       acc.2 ++ pts.map fun p => { p with selected := insideBrush s r p.datum }) := by
  induction pts generalizing acc with
  | nil => simp
  | cons p ps ih =>
    rw [List.foldl_cons, ih]
    by_cases hp : insideBrush s r p.datum = true
    · simp [brushStep, hp, List.filter_cons]
    · simp [brushStep, hp, List.filter_cons]

/-- The test of `brushed` holds exactly when both pixel coordinates are
finite numbers inside the closed rectangle. -/
theorem insideBrush_iff (s : State) (r : Rect) (d : Record) :
    insideBrush s r d = true ↔
      ∃ x y : ℚ, s.overviewXScale (JSNum.fin d.hoursPerDay) = JSNum.fin x ∧
        s.overviewYScale (d.get s.currentMetric) = JSNum.fin y ∧
        r.x0 ≤ x ∧ x ≤ r.x1 ∧ r.y0 ≤ y ∧ y ≤ r.y1 := by
  unfold insideBrush
  cases hx : s.overviewXScale (JSNum.fin d.hoursPerDay) <;>
    cases hy : s.overviewYScale (d.get s.currentMetric) <;>
    simp [JSNum.ge, JSNum.le]
  tauto

/-- With the circles of `data` on the page, the loop of `brushed` leaves in
`selectedData` the records of `data` that pass the test, in order. -/
theorem brushed_some_selectedData (s : State) (r : Rect) (hs : Rendered s) :
    (brushed s (some r)).selectedData = s.data.filter (insideBrush s r) := by
  unfold Rendered at hs
  simp [brushed, foldl_brushStep, hs]

/-- C1. After `brushed` runs with a rectangle, `selectedData` is exactly the
records of `data` whose circle lies in the closed rectangle
`x0 <= xScale(d.hoursPerDay) <= x1`, `y0 <= yScale(d[currentMetric]) <= y1`,
in dataset order and as often as they occur in `data` (once, when `data`
repeats no record), whatever `selectedData` held before. -/
theorem brushed_selects_rectangle (s : State) (r : Rect) (hs : Rendered s) :
    (brushed s (some r)).selectedData = s.data.filter (insideBrush s r) ∧
    (∀ d, insideBrush s r d = true ↔
      ∃ x y : ℚ, s.overviewXScale (JSNum.fin d.hoursPerDay) = JSNum.fin x ∧
        s.overviewYScale (d.get s.currentMetric) = JSNum.fin y ∧
        r.x0 ≤ x ∧ x ≤ r.x1 ∧ r.y0 ≤ y ∧ y ≤ r.y1) ∧
    (∀ d, d ∈ (brushed s (some r)).selectedData ↔ d ∈ s.data ∧ insideBrush s r d = true) ∧
    (∀ d, (brushed s (some r)).selectedData.count d =
      if insideBrush s r d = true then s.data.count d else 0) ∧
    (s.data.Nodup → (brushed s (some r)).selectedData.Nodup) := by
  have hsel := brushed_some_selectedData s r hs
  refine ⟨hsel, insideBrush_iff s r, ?_, ?_, ?_⟩
  · intro d
    rw [hsel, List.mem_filter]
  · intro d
    rw [hsel]
    by_cases hd : insideBrush s r d = true
    · rw [if_pos hd, List.count_filter hd]
    · rw [if_neg hd, List.count_eq_zero]
      intro hmem
      exact hd (List.mem_filter.mp hmem).2
  · intro hnd
    rw [hsel]
    exact hnd.filter _

/-- After `initDashboard` the circles are those of the generated records. -/
theorem rendered_initDashboard (synthetic : List Record) :
    Rendered (initDashboard synthetic) := by
  unfold Rendered initDashboard
  simp only [List.map_map]
  exact List.map_id _

/-- The state of the sample dashboard is rendered, and a brush over
`[100, 300] x [150, 300]` keeps the first two sample records. -/
theorem brushed_selects_rectangle_witness :
    Rendered (initDashboard sampleData) ∧
    (brushed (initDashboard sampleData) (some ⟨100, 150, 300, 300⟩)).selectedData =
      (initDashboard sampleData).data.filter
        (insideBrush (initDashboard sampleData) ⟨100, 150, 300, 300⟩) ∧
    (initDashboard sampleData).data.filter
        (insideBrush (initDashboard sampleData) ⟨100, 150, 300, 300⟩) =
      [person 0 1 2, person 1 2 4] := by
  have hr : Rendered (initDashboard sampleData) := rendered_initDashboard sampleData
  refine ⟨hr, (brushed_selects_rectangle _ _ hr).1, ?_⟩
  simp [initDashboard, sampleData, insideBrush, setupXScale, setupYScale, d3max,
    scaleLinear, person, Record.get, JSNum.ge, JSNum.le, overviewWidth, overviewHeight,
    List.filter_cons]
  norm_num

/-- C2. When `brushed` runs with no region, `selectedData` becomes all the
records of `data`, in dataset order, whatever it held before. -/
theorem brushed_null_selects_all (s : State) :
    (brushed s none).selectedData = s.data ∧
    (∀ d, d ∈ s.data → d ∈ (brushed s none).selectedData) := by
  constructor
  · rfl
  · intro d hd
    exact hd

/-! ## Clearing and the whole-extent brush -/

/-- The `d3.max` of a list bounds each of its members. -/
theorem d3max_ge (l : List ℚ) (x : ℚ) (hx : x ∈ l) : ∃ m, d3max l = some m ∧ x ≤ m := by
  induction l with
  | nil => cases hx
  | cons a as ih =>
    rcases List.mem_cons.mp hx with rfl | hmem
    · cases h : d3max as with
      | none => exact ⟨x, by simp [d3max, h], le_refl _⟩
      | some m =>
        refine ⟨if m < x then x else m, by simp [d3max, h], ?_⟩
        split_ifs with hlt
        · exact le_refl _
        · exact not_lt.mp hlt
    · obtain ⟨m, hm, hle⟩ := ih hmem
      refine ⟨if m < a then a else m, by simp [d3max, hm], ?_⟩
      split_ifs with hlt
      · exact le_trans hle (le_of_lt hlt)
      · exact hle

/-- A linear scale from `[0, m]` onto `[0, w]` sends a value between 0 and
`m` into `[0, w]`. -/
theorem scaleLinear_up_range (m w h : ℚ) (hw : 0 ≤ w) (h0 : 0 ≤ h) (hm : h ≤ m) :
    ∃ x, scaleLinear 0 m 0 w (JSNum.fin h) = JSNum.fin x ∧ 0 ≤ x ∧ x ≤ w := by
  refine ⟨_, rfl, ?_, ?_⟩
  · by_cases hz : m - 0 = 0
    · simp only [hz, if_true]
      nlinarith
    · simp only [hz, if_false]
      have hpos : 0 < m := lt_of_le_of_ne (le_trans h0 hm) (fun e => hz (by rw [← e]; ring))
      have : 0 ≤ (h - 0) / (m - 0) := by
        apply div_nonneg <;> linarith
      nlinarith
  · by_cases hz : m - 0 = 0
    · simp only [hz, if_true]
      nlinarith
    · simp only [hz, if_false]
      have hpos : 0 < m := lt_of_le_of_ne (le_trans h0 hm) (fun e => hz (by rw [← e]; ring))
      have : (h - 0) / (m - 0) ≤ 1 := by
        rw [div_le_one (by linarith)]
        linarith
      nlinarith

/-- A linear scale from `[0, 10]` onto `[h, 0]` sends a score between 0 and 10
into `[0, h]`. -/
theorem scaleLinear_down_range (h v : ℚ) (hh : 0 ≤ h) (h0 : 0 ≤ v) (h10 : v ≤ 10) :
    ∃ y, scaleLinear 0 10 h 0 (JSNum.fin v) = JSNum.fin y ∧ 0 ≤ y ∧ y ≤ h := by
  refine ⟨_, rfl, ?_, ?_⟩
  · norm_num
    apply mul_nonneg hh
    linarith
  · norm_num
    have : h * (1 - v / 10) ≤ h * 1 := by
      apply mul_le_mul_of_nonneg_left _ hh
      linarith
    linarith

/-- With the scales of `setupOverviewChart`, every record inside the domains
passes the test of a brush over the whole extent. -/
theorem insideBrush_wholeExtent (s : State)
    (hx : s.overviewXScale = setupXScale s.data) (hy : s.overviewYScale = setupYScale)
    (hd : InDomain s) (d : Record) (hmem : d ∈ s.data) :
    insideBrush s wholeExtent d = true := by
  obtain ⟨h0, v, hv, hv0, hv10⟩ := hd d hmem
  obtain ⟨m, hmax, hle⟩ := d3max_ge (s.data.map Record.hoursPerDay) d.hoursPerDay
    (List.mem_map_of_mem _ hmem)
  obtain ⟨x, hxe, hx0, hx1⟩ :=
    scaleLinear_up_range m overviewWidth d.hoursPerDay (by norm_num [overviewWidth]) h0 hle
  obtain ⟨y, hye, hy0, hy1⟩ :=
    scaleLinear_down_range overviewHeight v (by norm_num [overviewHeight]) hv0 hv10
  rw [insideBrush_iff]
  refine ⟨x, y, ?_, ?_, hx0, hx1, hy0, hy1⟩
  · rw [hx, setupXScale, hmax]
    exact hxe
  · rw [hy, hv, setupYScale]
    exact hye

/-- Removing the class twice is removing it once. -/
theorem clearFlags_clearFlags (pts : List Point) : clearFlags (clearFlags pts) = clearFlags pts := by
  simp [clearFlags, List.map_map, Function.comp]

/-- No circle is flagged after `clearFlags`. -/
theorem clearFlags_all_false (pts : List Point) : ∀ p ∈ clearFlags pts, p.selected = false := by
  intro p hp
  obtain ⟨q, _, rfl⟩ := List.mem_map.mp hp
  rfl

/-- C3, as stated, fails: on the freshly initialised sample dashboard a brush
over the whole extent selects every record but flags all three circles, while
`clearSelection` flags none; and once the metric is a field whose values leave
the score domain (`age`), the whole-extent brush selects no record at all. -/
theorem whole_brush_differs_from_clear :
    (brushed (initDashboard sampleData) (some wholeExtent)).selectedData = sampleData ∧
    (brushed (initDashboard sampleData) (some wholeExtent)).points.map Point.selected =
      [true, true, true] ∧
    (clearSelection (initDashboard sampleData)).points.map Point.selected =
      [false, false, false] ∧
    (brushed (updateMentalHealthMetric (initDashboard sampleData) "age")
      (some wholeExtent)).selectedData = [] ∧
    (clearSelection (updateMentalHealthMetric (initDashboard sampleData) "age")).selectedData =
      sampleData := by
  refine ⟨?_, ?_, ?_, ?_, ?_⟩
  · simp [brushed, initDashboard, sampleData, brushStep, insideBrush, setupXScale, setupYScale,
      d3max, scaleLinear, person, Record.get, JSNum.ge, JSNum.le, overviewWidth, overviewHeight,
      wholeExtent]
    norm_num
  · simp [brushed, initDashboard, sampleData, brushStep, insideBrush, setupXScale, setupYScale,
      d3max, scaleLinear, person, Record.get, JSNum.ge, JSNum.le, overviewWidth, overviewHeight,
      wholeExtent]
    norm_num
  · simp [clearSelection, brushed, initDashboard, sampleData, clearFlags]
  · simp [brushed, updateMentalHealthMetric, initDashboard, sampleData, brushStep, insideBrush,
      setupXScale, setupYScale, d3max, scaleLinear, person, Record.get, JSNum.ge, JSNum.le,
      overviewWidth, overviewHeight, wholeExtent]
    norm_num
  · simp [clearSelection, brushed, updateMentalHealthMetric, initDashboard]

/-- C3, amended. `clearSelection` and `brushed` with no region leave the same
state: `selectedData` is all of `data` and no circle is flagged.  With the
scales of `setupOverviewChart` and every record inside their domains, a brush
over the whole extent also makes `selectedData` all of `data`, but it flags
every circle. -/
theorem clear_eq_null_brush_and_whole_brush (s : State) (hr : Rendered s)
    (hx : s.overviewXScale = setupXScale s.data) (hy : s.overviewYScale = setupYScale)
    (hd : InDomain s) :
    clearSelection s = brushed s none ∧
    (clearSelection s).selectedData = s.data ∧
    (∀ p ∈ (clearSelection s).points, p.selected = false) ∧
    (brushed s (some wholeExtent)).selectedData = (clearSelection s).selectedData ∧
    (∀ p ∈ (brushed s (some wholeExtent)).points, p.selected = true) := by
  refine ⟨?_, rfl, ?_, ?_, ?_⟩
  · simp [clearSelection, brushed, clearFlags_clearFlags]
  · intro p hp
    have : (clearSelection s).points = clearFlags s.points := by
      simp [clearSelection, brushed, clearFlags_clearFlags]
    rw [this] at hp
    exact clearFlags_all_false _ p hp
  · rw [brushed_some_selectedData s wholeExtent hr]
    show _ = s.data
    rw [List.filter_eq_self]
    exact insideBrush_wholeExtent s hx hy hd
  · intro p hp
    have hpts : (brushed s (some wholeExtent)).points =
        s.points.map fun p => { p with selected := insideBrush s wholeExtent p.datum } := by
      simp [brushed, foldl_brushStep]
    rw [hpts] at hp
    obtain ⟨q, hq, rfl⟩ := List.mem_map.mp hp
    have hmem : q.datum ∈ s.data := by
      rw [← hr]
      exact List.mem_map_of_mem _ hq
    exact insideBrush_wholeExtent s hx hy hd q.datum hmem

/-- The sample dashboard meets the hypotheses of the amended C3. -/
theorem clear_eq_null_brush_and_whole_brush_witness :
    clearSelection (initDashboard sampleData) = brushed (initDashboard sampleData) none ∧
    (clearSelection (initDashboard sampleData)).selectedData = (initDashboard sampleData).data ∧
    (∀ p ∈ (clearSelection (initDashboard sampleData)).points, p.selected = false) ∧
    (brushed (initDashboard sampleData) (some wholeExtent)).selectedData =
      (clearSelection (initDashboard sampleData)).selectedData ∧
    (∀ p ∈ (brushed (initDashboard sampleData) (some wholeExtent)).points,
      p.selected = true) :=
  clear_eq_null_brush_and_whole_brush (initDashboard sampleData)
    (rendered_initDashboard sampleData) rfl rfl (by
      intro d hd
      simp only [initDashboard, sampleData, List.mem_cons, List.mem_singleton,
        List.not_mem_nil, or_false] at hd
      rcases hd with rfl | rfl | rfl <;>
        simp [person, Record.get, initDashboard] <;> norm_num)

/-! ## Clicking a circle -/

/-- Changing the flag of the `i`-th circle leaves the bound records alone. -/
theorem map_datum_set (pts : List Point) (i : Nat) (p : Point) (b : Bool)
    (hp : pts.get? i = some p) :
    (pts.set i { p with selected := b }).map Point.datum = pts.map Point.datum := by
  induction pts generalizing i with
  | nil => simp
  | cons q qs ih =>
    cases i with
    | zero =>
      simp only [List.get?_cons_zero, Option.some.injEq] at hp
      subst hp
      simp
    | succ j =>
      simp only [List.get?_cons_succ] at hp
      simp [ih j hp]

/-- A click never touches `data`. -/
theorem pointClicked_data (s : State) (i : Nat) : (pointClicked s i).data = s.data := by
  unfold pointClicked
  split
  · rfl
  · split <;> rfl

/-- A click never changes which record a circle is bound to. -/
theorem pointClicked_points_datum (s : State) (i : Nat) :
    (pointClicked s i).points.map Point.datum = s.points.map Point.datum := by
  unfold pointClicked
  split
  · rfl
  · next p hp =>
    split
    · exact map_datum_set _ _ _ _ hp
    · exact map_datum_set _ _ _ _ hp

/-- A click keeps the circles those of `data`. -/
theorem rendered_pointClicked (s : State) (i : Nat) (hs : Rendered s) :
    Rendered (pointClicked s i) := by
  unfold Rendered at hs ⊢
  rw [pointClicked_points_datum, pointClicked_data]
  exact hs

/-- A brush, or its removal, keeps the circles those of `data`. -/
theorem rendered_brushed (s : State) (sel : Option Rect) (hs : Rendered s) :
    Rendered (brushed s sel) := by
  unfold Rendered at hs ⊢
  cases sel with
  | none =>
    simp only [brushed, clearFlags, List.map_map]
    rw [← hs]
    rfl
  | some r =>
    simp only [brushed, foldl_brushStep, List.nil_append, List.map_map]
    rw [← hs]
    rfl

/-- Clearing keeps the circles those of `data`. -/
theorem rendered_clearSelection (s : State) (hs : Rendered s) :
    Rendered (clearSelection s) := by
  unfold clearSelection
  apply rendered_brushed
  unfold Rendered at hs ⊢
  simp only [clearFlags, List.map_map]
  rw [← hs]
  rfl

/-- Changing the metric keeps the circles those of `data`. -/
theorem rendered_updateMentalHealthMetric (s : State) (metric : String) (hs : Rendered s) :
    Rendered (updateMentalHealthMetric s metric) := hs

/-- C4, evaluated where it fails: right after `initDashboard` the first sample
record is in `selectedData`, its circle is not flagged, and a click on it
leaves the record in `selectedData`. -/
theorem pointClicked_initial_keeps_member :
    person 0 1 2 ∈ (initDashboard sampleData).selectedData ∧
    (initDashboard sampleData).points.get? 0 = some ⟨person 0 1 2, false⟩ ∧
    (pointClicked (initDashboard sampleData) 0).selectedData = sampleData ∧
    person 0 1 2 ∈ (pointClicked (initDashboard sampleData) 0).selectedData := by
  simp [pointClicked, initDashboard, sampleData, person]

/-- C5, evaluated where it fails: two clicks on the first circle of the
freshly initialised sample dashboard remove its record from `selectedData`,
which held it before. -/
theorem pointClicked_twice_initial_drops_member :
    (initDashboard sampleData).selectedData = sampleData ∧
    (pointClicked (pointClicked (initDashboard sampleData) 0) 0).selectedData =
      [person 1 2 4, person 2 4 6] ∧
    (pointClicked (pointClicked (clearSelection (initDashboard sampleData)) 0) 0).selectedData =
      [person 1 2 4, person 2 4 6] := by
  simp [pointClicked, clearSelection, brushed, clearFlags, initDashboard, sampleData, person,
    List.filter_cons]

/-! ## The averages -/

/-- Rounding at work: small integers are kept, 1/10 becomes the binary64 value
written `0.1`, 4/3 its binary64 neighbour, and `8 + 2 ^ -50`, halfway between
two binary64 values, goes to the even one, 8. -/
theorem round_samples :
    JSNum.round 4 = JSNum.fin 4 ∧
    JSNum.round (1 / 10) = JSNum.fin (3602879701896397 / 36028797018963968) ∧
    JSNum.round (4 / 3) = JSNum.fin (6004799503160661 / 4503599627370496) ∧
    JSNum.round (9007199254740993 / 1125899906842624) = JSNum.fin 8 ∧
    JSNum.round (9007199254740995 / 1125899906842624) =
      JSNum.fin (9007199254740996 / 1125899906842624) ∧
    JSNum.round (-1 / 3) = JSNum.fin (-6004799503160661 / 18014398509481984) := by
  refine ⟨by decide!, by decide!, by decide!, by decide!, by decide!, by decide!⟩

/-- The running sum of `reduce` over records whose field is a finite number
is the running sum of the values of the field. -/
theorem foldl_add_get (f : Record → ℚ) (metric : String)
    (hf : ∀ d : Record, d.get metric = JSNum.fin (f d)) (l : List Record) (a : JSNum) :
    l.foldl (fun sum d => JSNum.add sum (d.get metric)) a =
      (l.map f).foldl (fun sum x => JSNum.add sum (JSNum.fin x)) a := by
  induction l generalizing a with
  | nil => rfl
  | cons d ds ih =>
    rw [List.foldl_cons, List.map_cons, List.foldl_cons, hf d]
    exact ih _

/-- The sum `reduce` computes for a metric whose field is a finite number. -/
theorem metricSum_eq_floatSum (f : Record → ℚ) (metric : String)
    (hf : ∀ d : Record, d.get metric = JSNum.fin (f d)) (l : List Record) :
    metricSum l metric = floatSum (l.map f) :=
  foldl_add_get f metric hf l _

/-- Started from a finite value, a rounded running sum none of whose steps
rounds is the exact sum. -/
theorem foldl_add_exact (xs : List ℚ) (a : ℚ)
    (hexact : ∀ k, k ≤ xs.length →
      JSNum.round (a + (xs.take k).sum) = JSNum.fin (a + (xs.take k).sum)) :
    xs.foldl (fun sum x => JSNum.add sum (JSNum.fin x)) (JSNum.fin a) =
      JSNum.fin (a + xs.sum) := by
  induction xs generalizing a with
  | nil => simp
  | cons x xs ih =>
    have h1 := hexact 1 (by simp)
    simp only [List.take_succ_cons, List.take_zero, List.sum_cons, List.sum_nil,
      add_zero] at h1
    rw [List.foldl_cons]
    show List.foldl _ (JSNum.round (a + x)) xs = _
    rw [h1, ih (a + x), List.sum_cons, add_assoc]
    intro k hk
    have hk1 := hexact (k + 1) (by simpa using hk)
    simp only [List.take_succ_cons, List.sum_cons] at hk1
    rw [add_assoc]
    exact hk1

/-- C6, as stated, fails.  For three records with scores 1, 1 and 2 the value
computed is the binary64 value next to 4/3, not the arithmetic mean 4/3.  For
the scores 8, `2 ^ -50`, `2 ^ -50`, 0 the value computed is 2, while the same
records selected in the reverse order give `2 + 2 ^ -51`, their arithmetic
mean.  For the scores `0.1`, `0.2`, `0.3` the value differs with the order as
well. -/
theorem avgData_not_arithmetic_mean :
    avgData thirdsSample =
      [("Anxiety", JSNum.fin (6004799503160661 / 4503599627370496)),
       ("Depression", JSNum.fin (6004799503160661 / 4503599627370496)),
       ("Insomnia", JSNum.fin (6004799503160661 / 4503599627370496)),
       ("Ocd", JSNum.fin (6004799503160661 / 4503599627370496))] ∧
    (thirdsSample.map Record.anxiety).sum / thirdsSample.length = 4 / 3 ∧
    (6004799503160661 / 4503599627370496 : ℚ) ≠ 4 / 3 ∧
    avgData tinySample =
      [("Anxiety", JSNum.fin 2), ("Depression", JSNum.fin 2), ("Insomnia", JSNum.fin 2),
       ("Ocd", JSNum.fin 2)] ∧
    avgData tinySample.reverse =
      [("Anxiety", JSNum.fin (4503599627370497 / 2251799813685248)),
       ("Depression", JSNum.fin (4503599627370497 / 2251799813685248)),
       ("Insomnia", JSNum.fin (4503599627370497 / 2251799813685248)),
       ("Ocd", JSNum.fin (4503599627370497 / 2251799813685248))] ∧
    (tinySample.map Record.anxiety).sum / tinySample.length =
      4503599627370497 / 2251799813685248 ∧
    (avgData decimalSample).map Prod.snd =
      List.replicate 4 (JSNum.fin (7205759403792795 / 36028797018963968)) ∧
    (avgData decimalSample.reverse).map Prod.snd =
      List.replicate 4 (JSNum.fin (7205759403792793 / 36028797018963968)) := by
  refine ⟨by decide!, by decide!, by decide!, by decide!, by decide!, by decide!,
    by decide!, by decide!⟩

/-- C6, amended. For a non-empty `selectedData`, `avgData` has exactly four
entries, for anxiety, depression, insomnia and ocd in that order, and the
value of each is the floating-point mean of the field: the values added one by
one from 0 in the order of `selectedData`, each partial sum rounded to binary64,
and the total divided by the number of selected records, the quotient rounded.
Whenever no partial sum and not the quotient is changed by rounding, this is
the arithmetic mean of the field. -/
theorem avgData_is_float_mean (selectedData : List Record) (hne : selectedData ≠ []) :
    avgData selectedData =
      [("Anxiety", floatMean (selectedData.map Record.anxiety)),
       ("Depression", floatMean (selectedData.map Record.depression)),
       ("Insomnia", floatMean (selectedData.map Record.insomnia)),
       ("Ocd", floatMean (selectedData.map Record.ocd))] ∧
    (selectedData.length : ℚ) ≠ 0 ∧
    (∀ f : Record → ℚ,
      (∀ k, k ≤ selectedData.length →
        JSNum.round (((selectedData.map f).take k).sum) =
          JSNum.fin (((selectedData.map f).take k).sum)) →
      JSNum.round ((selectedData.map f).sum / selectedData.length) =
        JSNum.fin ((selectedData.map f).sum / selectedData.length) →
      floatMean (selectedData.map f) =
        JSNum.fin ((selectedData.map f).sum / selectedData.length)) := by
  have hlen : ((selectedData.length : ℕ) : ℚ) ≠ 0 := by
    have : selectedData.length ≠ 0 := fun h => hne (List.length_eq_zero.mp h)
    exact_mod_cast this
  refine ⟨?_, hlen, ?_⟩
  · have h1 := metricSum_eq_floatSum Record.anxiety "anxiety" (fun d => by simp [Record.get])
      selectedData
    have h2 := metricSum_eq_floatSum Record.depression "depression"
      (fun d => by simp [Record.get]) selectedData
    have h3 := metricSum_eq_floatSum Record.insomnia "insomnia" (fun d => by simp [Record.get])
      selectedData
    have h4 := metricSum_eq_floatSum Record.ocd "ocd" (fun d => by simp [Record.get])
      selectedData
    have c1 : capitalized "anxiety" = "Anxiety" := by decide
    have c2 : capitalized "depression" = "Depression" := by decide
    have c3 : capitalized "insomnia" = "Insomnia" := by decide
    have c4 : capitalized "ocd" = "Ocd" := by decide
    simp only [avgData, metrics, List.map_cons, List.map_nil, h1, h2, h3, h4, floatMean,
      List.length_map, c1, c2, c3, c4]
  · intro f hpre hquot
    have hsum : floatSum (selectedData.map f) = JSNum.fin ((selectedData.map f).sum) := by
      unfold floatSum
      rw [foldl_add_exact (selectedData.map f) 0, zero_add]
      intro k hk
      rw [zero_add]
      exact hpre k (by simpa using hk)
    unfold floatMean
    rw [hsum, List.length_map]
    simp only [JSNum.div, hlen, if_false]
    exact hquot

/-- The three sample records, with scores 2, 4 and 6, average to 4; the first
two, with scores 2 and 4, average to 3: no step rounds. -/
theorem avgData_is_float_mean_witness :
    sampleData ≠ [] ∧
    avgData sampleData =
      [("Anxiety", JSNum.fin 4), ("Depression", JSNum.fin 4), ("Insomnia", JSNum.fin 4),
       ("Ocd", JSNum.fin 4)] ∧
    avgData [person 0 1 2, person 1 2 4] =
      [("Anxiety", JSNum.fin 3), ("Depression", JSNum.fin 3), ("Insomnia", JSNum.fin 3),
       ("Ocd", JSNum.fin 3)] := by
  have hne : sampleData ≠ [] := by simp [sampleData]
  have hne2 : [person 0 1 2, person 1 2 4] ≠ [] := by simp
  refine ⟨hne, ?_, ?_⟩
  · rw [(avgData_is_float_mean sampleData hne).1]
    decide!
  · rw [(avgData_is_float_mean _ hne2).1]
    decide!

/-- C7. On an empty `selectedData` the value computed for each of the four
metrics is `NaN`, the result of `0 / 0`: it is no finite number (so not 0) and
no infinity, and the computation yields its four entries. -/
theorem avgData_empty_is_nan :
    avgData [] =
      [("Anxiety", JSNum.nan), ("Depression", JSNum.nan), ("Insomnia", JSNum.nan),
       ("Ocd", JSNum.nan)] ∧
    (∀ e ∈ avgData [], e.2 = JSNum.div (JSNum.fin 0) (JSNum.fin 0)) ∧
    (∀ e ∈ avgData [], e.2.isNaN = true ∧ ∀ q : ℚ, e.2 ≠ JSNum.fin q) := by
  have c1 : capitalized "anxiety" = "Anxiety" := by decide
  have c2 : capitalized "depression" = "Depression" := by decide
  have c3 : capitalized "insomnia" = "Insomnia" := by decide
  have c4 : capitalized "ocd" = "Ocd" := by decide
  have h : avgData [] =
      [("Anxiety", JSNum.nan), ("Depression", JSNum.nan), ("Insomnia", JSNum.nan),
       ("Ocd", JSNum.nan)] := by
    simp [avgData, metrics, metricSum, JSNum.div, c1, c2, c3, c4]
  refine ⟨h, ?_, ?_⟩
  · intro e he
    rw [h] at he
    simp only [List.mem_cons, List.mem_singleton, List.not_mem_nil, or_false] at he
    rcases he with rfl | rfl | rfl | rfl <;> simp [JSNum.div]
  · intro e he
    rw [h] at he
    simp only [List.mem_cons, List.mem_singleton, List.not_mem_nil, or_false] at he
    rcases he with rfl | rfl | rfl | rfl <;> simp [JSNum.isNaN]

end Homework3

namespace Homework2

/-! ## Drinkers per age -/

/-- The ages `d3.range(15, 23)` runs through. -/
theorem d3range_15_23 : d3range 15 23 = [15, 16, 17, 18, 19, 20, 21, 22] := by
  decide

/-- The count of one bar is the number of drinking records of that age. -/
theorem filter_length_eq_drinkersOfAge (data : List Student) (a : ℤ) :
    (data.filter fun d =>
      decide (d.age = (a : ℚ)) && (decide (d.Walc > 1) || decide (d.Dalc > 1))).length =
      drinkersOfAge data a := by
  unfold drinkersOfAge
  rw [List.countP_eq_length_filter]
  congr 1
  apply List.filter_congr
  intro d _
  simp [Bool.decide_and, Bool.decide_or]

/-- C8. For every dataset `ageGroups` is the sequence of eight pairs for the
ages 15 to 22 in ascending order, each with the number of records of that age
for which `Walc > 1` or `Dalc > 1`; an age no record has gets count 0. -/
theorem ageGroups_counts (data : List Student) :
    ageGroups data =
      [⟨15, drinkersOfAge data 15⟩, ⟨16, drinkersOfAge data 16⟩, ⟨17, drinkersOfAge data 17⟩,
       ⟨18, drinkersOfAge data 18⟩, ⟨19, drinkersOfAge data 19⟩, ⟨20, drinkersOfAge data 20⟩,
       ⟨21, drinkersOfAge data 21⟩, ⟨22, drinkersOfAge data 22⟩] ∧
    (∀ a : ℤ, (∀ d ∈ data, d.age ≠ (a : ℚ)) → drinkersOfAge data a = 0) := by
  constructor
  · unfold ageGroups
    rw [d3range_15_23]
    simp only [List.map_cons, List.map_nil, filter_length_eq_drinkersOfAge]
  · intro a ha
    unfold drinkersOfAge
    rw [List.countP_eq_zero]
    intro d hd
    simp [ha d hd]

/-- The sample of the specification: ages 15, 16, 16, 17, 22 with drinkers at
15, 16 (once) and 17. -/
theorem ageGroups_counts_witness :
    ageGroups sampleStudents =
      [⟨15, 1⟩, ⟨16, 1⟩, ⟨17, 1⟩, ⟨18, 0⟩, ⟨19, 0⟩, ⟨20, 0⟩, ⟨21, 0⟩, ⟨22, 0⟩] := by
  rw [(ageGroups_counts sampleStudents).1]
  simp [drinkersOfAge, sampleStudents, student, List.countP_cons]

/-- C9. The array `ageGroups` does not depend on the order of the rows: two
datasets that are permutations of each other give the same buckets, in the
same order, with the same counts. -/
theorem ageGroups_perm (data data' : List Student) (h : data.Perm data') :
    ageGroups data = ageGroups data' := by
  unfold ageGroups
  apply List.map_congr_left
  intro age _
  simp only [AgeGroup.mk.injEq, true_and]
  exact (h.filter _).length_eq

/-- Reversing the sample rows leaves `ageGroups` as it was. -/
theorem ageGroups_perm_witness :
    ageGroups sampleStudents = ageGroups sampleStudents.reverse :=
  ageGroups_perm sampleStudents sampleStudents.reverse (List.reverse_perm sampleStudents).symm

/-! ## Alcohol use per guardian -/

/-- A key is among the first occurrences exactly when it occurs. -/
theorem mem_firstSeen (ks : List String) (k : String) : k ∈ firstSeen ks ↔ k ∈ ks := by
  induction ks with
  | nil => simp [firstSeen]
  | cons a as ih =>
    simp only [firstSeen, List.mem_cons, List.mem_filter, ih, decide_eq_true_eq]
    by_cases h : k = a
    · simp [h]
    · simp [h]

/-- The first occurrences hold no key twice. -/
theorem nodup_firstSeen (ks : List String) : (firstSeen ks).Nodup := by
  induction ks with
  | nil => simp [firstSeen]
  | cons a as ih =>
    simp only [firstSeen, List.nodup_cons, List.mem_filter, decide_eq_true_eq]
    exact ⟨fun h => h.2 rfl, ih.filter _⟩

/-- Reading one more key at the end adds it after the others when it is new,
and changes nothing when it was seen. -/
theorem firstSeen_snoc (ks : List String) (k : String) :
    firstSeen (ks ++ [k]) = if k ∈ ks then firstSeen ks else firstSeen ks ++ [k] := by
  induction ks with
  | nil => simp [firstSeen]
  | cons a as ih =>
    rw [List.cons_append, firstSeen, ih]
    by_cases hka : k = a
    · subst hka
      by_cases hmem : k ∈ as
      · simp [hmem, firstSeen]
      · simp [hmem, firstSeen, List.filter_append]
    · by_cases hmem : k ∈ as
      · simp [hmem, hka, firstSeen]
      · simp [hmem, hka, firstSeen, List.filter_append]

/-- Pushing a value on groups listed by distinct keys: the group of its key
grows by the value, or a new group is opened at the end. -/
theorem nestPush_map {α : Type} (F : String → List α) (ks : List String) (hnd : ks.Nodup)
    (k : String) (v : α) :
    nestPush (ks.map fun k' => (k', F k')) k v =
      if k ∈ ks then ks.map fun k' => (k', if k' = k then F k' ++ [v] else F k')
      else (ks.map fun k' => (k', F k')) ++ [(k, [v])] := by
  induction ks with
  | nil => simp [nestPush]
  | cons a as ih =>
    obtain ⟨ha, hnd'⟩ := List.nodup_cons.mp hnd
    simp only [List.map_cons, nestPush]
    by_cases hak : a = k
    · subst hak
      simp only [if_true, List.mem_cons, true_or]
      congr 1
      apply List.map_congr_left
      intro k' hk'
      have : k' ≠ a := fun e => ha (e ▸ hk')
      simp [this]
    · have hka : ¬ k = a := fun e => hak e.symm
      simp only [hak, if_false, List.mem_cons, hka, false_or]
      rw [ih hnd']
      by_cases hmem : k ∈ as
      · simp [hmem]
      · simp [hmem]

/-- The grouping loop read one more row at the end. -/
theorem nestGroups_snoc {α : Type} (key : α → String) (ds : List α) (d : α) :
    nestGroups key (ds ++ [d]) = nestPush (nestGroups key ds) (key d) d := by
  simp [nestGroups, List.foldl_append]

/-- The groups of `d3.nest`: one per key in order of first occurrence, each
holding the rows of that key in their order. -/
theorem nestGroups_eq {α : Type} (key : α → String) (data : List α) :
    nestGroups key data =
      (firstSeen (data.map key)).map fun k => (k, data.filter fun d => decide (key d = k)) := by
  induction data using List.reverseRecOn with
  | nil => simp [nestGroups, firstSeen]
  | append_singleton ds d ih =>
    rw [nestGroups_snoc, ih, nestPush_map _ _ (nodup_firstSeen _), List.map_append,
      List.map_singleton, firstSeen_snoc]
    by_cases hmem : key d ∈ ds.map key
    · have hmem' : key d ∈ firstSeen (ds.map key) := (mem_firstSeen _ _).mpr hmem
      rw [if_pos hmem', if_pos hmem]
      apply List.map_congr_left
      intro k _
      by_cases hk : k = key d
      · subst hk
        simp [List.filter_append]
      · have hk' : ¬ key d = k := fun e => hk e.symm
        simp [List.filter_append, hk, hk']
    · have hmem' : ¬ key d ∈ firstSeen (ds.map key) := fun h => hmem ((mem_firstSeen _ _).mp h)
      rw [if_neg hmem', if_neg hmem, List.map_append, List.map_singleton]
      have hnone : ds.filter (fun d' => decide (key d' = key d)) = [] := by
        rw [List.filter_eq_nil_iff]
        intro d' hd' heq
        exact hmem (List.mem_map.mpr ⟨d', hd', of_decide_eq_true heq⟩)
      congr 1
      · apply List.map_congr_left
        intro k hk
        have hk' : ¬ key d = k := by
          intro e
          rw [mem_firstSeen] at hk
          exact hmem (e ▸ hk)
        simp [List.filter_append, hk']
      · simp [List.filter_append, hnone]

/-- The `d3.sum` started from any value adds the plain sum of the list. -/
theorem foldl_d3sum {α : Type} (f : α → ℚ) (vs : List α) (a : ℚ) :
    vs.foldl (fun sum v => if f v ≠ 0 then sum + f v else sum) a = a + (vs.map f).sum := by
  induction vs generalizing a with
  | nil => simp
  | cons v vs ih =>
    rw [List.foldl_cons, ih, List.map_cons, List.sum_cons]
    by_cases h : f v = 0
    · simp [h]
    · simp [h, add_assoc]

/-- The `d3.sum` is the sum of the values. -/
theorem d3sum_eq_sum {α : Type} (f : α → ℚ) (vs : List α) : d3sum vs f = (vs.map f).sum := by
  unfold d3sum
  rw [foldl_d3sum, zero_add]

/-- The first occurrences are listed by increasing position of first
occurrence. -/
theorem firstSeen_pairwise (ks : List String) :
    (firstSeen ks).Pairwise fun a b => ks.indexOf a < ks.indexOf b := by
  induction ks using List.reverseRecOn with
  | nil => simp [firstSeen]
  | append_singleton ks k ih =>
    rw [firstSeen_snoc]
    have hold : (firstSeen ks).Pairwise fun a b =>
        (ks ++ [k]).indexOf a < (ks ++ [k]).indexOf b := by
      apply ih.imp_of_mem
      intro a b ha hb hlt
      rw [mem_firstSeen] at ha hb
      rw [List.indexOf_append_of_mem ha, List.indexOf_append_of_mem hb]
      exact hlt
    by_cases hmem : k ∈ ks
    · simp only [hmem, if_true]
      exact hold
    · simp only [hmem, if_false]
      rw [List.pairwise_append]
      refine ⟨hold, List.pairwise_singleton _ _, ?_⟩
      intro a ha b hb
      rw [mem_firstSeen] at ha
      rw [List.mem_singleton] at hb
      subst hb
      rw [List.indexOf_append_of_mem ha, List.indexOf_append_of_not_mem hmem]
      have := List.indexOf_lt_length.mpr ha
      omega

/-- C10. For every dataset `guardianGroups` has exactly one entry per distinct
`guardian` value, the entries come in the order in which each value first
occurs in the dataset, and the value of each entry is the sum of
`Dalc + Walc` over the records with that guardian. -/
theorem guardianGroups_first_seen_sums (data : List Student) :
    (guardianGroups data).map Entry.key = firstSeen (data.map Student.guardian) ∧
    ((guardianGroups data).map Entry.key).Nodup ∧
    (∀ k, k ∈ (guardianGroups data).map Entry.key ↔ ∃ d ∈ data, d.guardian = k) ∧
    ((guardianGroups data).map Entry.key).Pairwise (fun a b =>
      (data.map Student.guardian).indexOf a < (data.map Student.guardian).indexOf b) ∧
    (∀ e ∈ guardianGroups data,
      e.value = ((data.filter fun d => decide (d.guardian = e.key)).map
        fun d => d.Dalc + d.Walc).sum) := by
  have hkeys : (guardianGroups data).map Entry.key = firstSeen (data.map Student.guardian) := by
    unfold guardianGroups
    rw [nestGroups_eq, List.map_map, List.map_map]
    exact List.map_id _
  refine ⟨hkeys, ?_, ?_, ?_, ?_⟩
  · rw [hkeys]
    exact nodup_firstSeen _
  · intro k
    rw [hkeys, mem_firstSeen, List.mem_map]
  · rw [hkeys]
    exact firstSeen_pairwise _
  · intro e he
    unfold guardianGroups at he
    rw [nestGroups_eq, List.map_map] at he
    obtain ⟨k, _, rfl⟩ := List.mem_map.mp he
    simp only [Function.comp]
    exact d3sum_eq_sum _ _

/-- The sample of the specification: guardians other, mother, father, mother
give the keys other, mother, father, with the sums 3, 8 and 4. -/
theorem guardianGroups_first_seen_sums_witness :
    sampleGuardians.map Student.guardian = ["other", "mother", "father", "mother"] ∧
    (guardianGroups sampleGuardians).map Entry.key = ["other", "mother", "father"] ∧
    guardianGroups sampleGuardians = [⟨"other", 3⟩, ⟨"mother", 8⟩, ⟨"father", 4⟩] := by
  refine ⟨by simp [sampleGuardians, student], ?_, ?_⟩
  · rw [(guardianGroups_first_seen_sums sampleGuardians).1]
    simp [sampleGuardians, student, firstSeen, List.filter_cons]
  · simp [guardianGroups, nestGroups, nestPush, sampleGuardians, student, d3sum]
    norm_num

end Homework2

namespace Homework3

/-! ## Changing the metric -/

/-- C11. `updateMentalHealthMetric` leaves `selectedData` and `data` (and the
circles and scales) as they were; it changes only `currentMetric`, which
afterwards is the given name. -/
theorem updateMentalHealthMetric_frame (s : State) (metric : String) :
    (updateMentalHealthMetric s metric).selectedData = s.selectedData ∧
    (updateMentalHealthMetric s metric).data = s.data ∧
    (updateMentalHealthMetric s metric).points = s.points ∧
    (updateMentalHealthMetric s metric).overviewXScale = s.overviewXScale ∧
    (updateMentalHealthMetric s metric).overviewYScale = s.overviewYScale ∧
    (updateMentalHealthMetric s metric).currentMetric = metric :=
  ⟨rfl, rfl, rfl, rfl, rfl, rfl⟩

/-- C13, as stated, fails: called with `mood`, which is none of the four
recognized names, `updateMentalHealthMetric` replaces the metric `anxiety` by
`mood`. -/
theorem updateMentalHealthMetric_accepts_unknown :
    "mood" ∉ metrics ∧
    (initDashboard sampleData).currentMetric = "anxiety" ∧
    (updateMentalHealthMetric (initDashboard sampleData) "mood").currentMetric = "mood" := by
  refine ⟨by decide, rfl, rfl⟩

/-- C13, amended. A name that is none of the recognized metric names is not
rejected: it replaces `currentMetric` like any other, so that the metric in
force is no recognized one, and `selectedData` and `data` stay as they
were. -/
theorem updateMentalHealthMetric_unvalidated (s : State) (name : String)
    (hname : name ∉ metrics) :
    (updateMentalHealthMetric s name).currentMetric = name ∧
    (updateMentalHealthMetric s name).currentMetric ∉ metrics ∧
    (updateMentalHealthMetric s name).selectedData = s.selectedData ∧
    (updateMentalHealthMetric s name).data = s.data :=
  ⟨rfl, hname, rfl, rfl⟩

/-- The name `mood` on the sample dashboard. -/
theorem updateMentalHealthMetric_unvalidated_witness :
    (updateMentalHealthMetric (initDashboard sampleData) "mood").currentMetric = "mood" ∧
    (updateMentalHealthMetric (initDashboard sampleData) "mood").currentMetric ∉ metrics ∧
    (updateMentalHealthMetric (initDashboard sampleData) "mood").selectedData =
      (initDashboard sampleData).selectedData ∧
    (updateMentalHealthMetric (initDashboard sampleData) "mood").data =
      (initDashboard sampleData).data :=
  updateMentalHealthMetric_unvalidated (initDashboard sampleData) "mood" (by decide)

/-! ## What every handler keeps -/

/-- A click on a circle is the handler body run on its flag and record. -/
theorem pointClicked_selectedData (s : State) (i : Nat) (p : Point)
    (hp : s.points.get? i = some p) :
    (pointClicked s i).selectedData = (pointClickedOn s.selectedData p.selected p.datum).2 := by
  unfold pointClicked pointClickedOn
  rw [hp]
  by_cases hsel : p.selected = true
  · simp [hsel]
  · simp [hsel]

/-- A click on a circle leaves it with the flag the handler body computes. -/
theorem pointClicked_points (s : State) (i : Nat) (p : Point)
    (hp : s.points.get? i = some p) :
    (pointClicked s i).points =
      s.points.set i { p with selected := (pointClickedOn s.selectedData p.selected p.datum).1 } := by
  unfold pointClicked pointClickedOn
  rw [hp]
  by_cases hsel : p.selected = true
  · simp [hsel]
  · simp [hsel]

/-- Where there is no circle, nothing happens. -/
theorem pointClicked_none (s : State) (i : Nat) (hp : s.points.get? i = none) :
    pointClicked s i = s := by
  unfold pointClicked
  rw [hp]

/-- The handler body yields records that were selected, or the datum. -/
theorem mem_pointClickedOn (sel : List Record) (b : Bool) (d x : Record)
    (hx : x ∈ (pointClickedOn sel b d).2) : x ∈ sel ∨ x = d := by
  unfold pointClickedOn at hx
  cases b with
  | true =>
    simp only [if_true] at hx
    exact Or.inl (List.mem_filter.mp hx).1
  | false =>
    simp only [Bool.false_eq_true, if_false] at hx
    split_ifs at hx with hfind
    · exact Or.inl hx
    · rcases List.mem_append.mp hx with h | h
      · exact Or.inl h
      · exact Or.inr (List.mem_singleton.mp h)

/-- The handler body keeps the selected ids distinct. -/
theorem nodup_pointClickedOn (sel : List Record) (b : Bool) (d : Record)
    (hnd : (sel.map Record.id).Nodup) :
    (((pointClickedOn sel b d).2).map Record.id).Nodup := by
  unfold pointClickedOn
  cases b with
  | true =>
    simp only [if_true]
    exact hnd.sublist ((List.filter_sublist _).map _)
  | false =>
    simp only [Bool.false_eq_true, if_false]
    split_ifs with hfind
    · exact hnd
    · rw [List.map_append, List.map_singleton]
      apply List.Nodup.append hnd (List.nodup_singleton _)
      rw [List.disjoint_singleton]
      intro hmem
      obtain ⟨x, hx, hid⟩ := List.mem_map.mp hmem
      apply hfind
      rw [List.find?_isSome]
      exact ⟨x, hx, by simp [hid]⟩

end Homework3

namespace Homework3

/-- No handler writes to `data`. -/
theorem steps_data (s0 s : State) (h : Steps s0 s) : s.data = s0.data := by
  induction h with
  | start => rfl
  | click s i _ ih => rw [pointClicked_data, ih]
  | brush s sel _ ih =>
    cases sel with
    | none => exact ih
    | some r => exact ih
  | clear s _ ih => exact ih
  | metric s name _ ih => exact ih

/-- From a rendered state the handlers lead to rendered states. -/
theorem steps_rendered (s0 s : State) (h0 : Rendered s0) (h : Steps s0 s) : Rendered s := by
  induction h with
  | start => exact h0
  | click s i _ ih => exact rendered_pointClicked s i ih
  | brush s sel _ ih => exact rendered_brushed s sel ih
  | clear s _ ih => exact rendered_clearSelection s ih
  | metric s name _ ih => exact rendered_updateMentalHealthMetric s name ih

/-- A click on a rendered page whose selection lies in `data` keeps it there. -/
theorem subset_pointClicked (s : State) (i : Nat) (hr : Rendered s)
    (hsub : ∀ d ∈ s.selectedData, d ∈ s.data) :
    ∀ d ∈ (pointClicked s i).selectedData, d ∈ (pointClicked s i).data := by
  intro d hd
  rw [pointClicked_data]
  cases hp : s.points.get? i with
  | none =>
    rw [pointClicked_none s i hp] at hd
    exact hsub d hd
  | some p =>
    rw [pointClicked_selectedData s i p hp] at hd
    rcases mem_pointClickedOn _ _ _ _ hd with h | h
    · exact hsub d h
    · rw [h, ← hr]
      exact List.mem_map_of_mem _ (List.get?_mem hp)

/-- A brush, or its removal, on a rendered page selects records of `data`. -/
theorem subset_brushed (s : State) (sel : Option Rect) (hr : Rendered s) :
    ∀ d ∈ (brushed s sel).selectedData, d ∈ (brushed s sel).data := by
  intro d hd
  cases sel with
  | none => exact hd
  | some r =>
    rw [brushed_some_selectedData s r hr] at hd
    exact (List.mem_filter.mp hd).1

/-- From a rendered state whose selection lies in `data`, the handlers lead
to states whose selection lies in `data`. -/
theorem steps_subset (s0 s : State) (h0 : Rendered s0)
    (hsub : ∀ d ∈ s0.selectedData, d ∈ s0.data) (h : Steps s0 s) :
    ∀ d ∈ s.selectedData, d ∈ s.data := by
  induction h with
  | start => exact hsub
  | click s i hs ih => exact subset_pointClicked s i (steps_rendered s0 s h0 hs) ih
  | brush s sel hs _ => exact subset_brushed s sel (steps_rendered s0 s h0 hs)
  | clear s _ _ =>
    intro d hd
    exact hd
  | metric s name _ ih => exact ih

/-- A brush, or its removal, on a rendered page with distinct ids selects
distinct ids. -/
theorem nodup_brushed (s : State) (sel : Option Rect) (hr : Rendered s)
    (hid : (s.data.map Record.id).Nodup) :
    ((brushed s sel).selectedData.map Record.id).Nodup := by
  cases sel with
  | none => exact hid
  | some r =>
    rw [brushed_some_selectedData s r hr]
    exact hid.sublist ((List.filter_sublist _).map _)

/-- A click keeps the selected ids distinct. -/
theorem nodup_pointClicked (s : State) (i : Nat)
    (hnd : (s.selectedData.map Record.id).Nodup) :
    ((pointClicked s i).selectedData.map Record.id).Nodup := by
  cases hp : s.points.get? i with
  | none =>
    rw [pointClicked_none s i hp]
    exact hnd
  | some p =>
    rw [pointClicked_selectedData s i p hp]
    exact nodup_pointClickedOn _ _ _ hnd

/-- When the ids of `data` are distinct, the handlers lead from the initial
state to selections with distinct ids. -/
theorem steps_nodup (synthetic : List Record) (s : State)
    (hid : (synthetic.map Record.id).Nodup) (h : Steps (initDashboard synthetic) s) :
    (s.selectedData.map Record.id).Nodup := by
  induction h with
  | start => exact hid
  | click s i _ ih => exact nodup_pointClicked s i ih
  | brush s sel hs _ =>
    apply nodup_brushed s sel (steps_rendered _ s (rendered_initDashboard synthetic) hs)
    rw [steps_data _ s hs]
    exact hid
  | clear s hs _ =>
    show (s.data.map Record.id).Nodup
    rw [steps_data _ s hs]
    exact hid
  | metric s name _ ih => exact ih

/-- The generated ids are distinct. -/
theorem Generated.nodup (synthetic : List Record) (h : Generated synthetic) :
    (synthetic.map Record.id).Nodup := by
  unfold Generated at h
  rw [h]
  exact List.nodup_range _

/-- The three sample records carry the ids 0, 1 and 2. -/
theorem generated_sampleData : Generated sampleData := by
  simp [Generated, sampleData, person, List.range_succ]

end Homework3

namespace Homework3

/-! ## The selection in the reachable states -/

/-- C12. In every state the handlers lead to from the state `initDashboard`
leaves, every record of `selectedData` is a record of `data`, so the selected
ids are ids of the dataset. -/
theorem selectedData_subset_data (synthetic : List Record) (s : State)
    (h : Steps (initDashboard synthetic) s) :
    (∀ d ∈ s.selectedData, d ∈ s.data) ∧
    (∀ i ∈ s.selectedData.map Record.id, i ∈ s.data.map Record.id) := by
  have hsub := steps_subset _ s (rendered_initDashboard synthetic) (fun d hd => hd) h
  refine ⟨hsub, ?_⟩
  intro i hi
  obtain ⟨d, hd, rfl⟩ := List.mem_map.mp hi
  exact List.mem_map_of_mem _ (hsub d hd)

/-- The sample dashboard after a brush and a click on the third circle. -/
theorem selectedData_subset_data_witness :
    (∀ d ∈ (pointClicked (brushed (initDashboard sampleData)
        (some ⟨100, 150, 300, 300⟩)) 2).selectedData,
      d ∈ (pointClicked (brushed (initDashboard sampleData)
        (some ⟨100, 150, 300, 300⟩)) 2).data) ∧
    (∀ i ∈ (pointClicked (brushed (initDashboard sampleData)
        (some ⟨100, 150, 300, 300⟩)) 2).selectedData.map Record.id,
      i ∈ (pointClicked (brushed (initDashboard sampleData)
        (some ⟨100, 150, 300, 300⟩)) 2).data.map Record.id) :=
  selectedData_subset_data sampleData _
    (Steps.click _ 2 (Steps.brush _ (some ⟨100, 150, 300, 300⟩) Steps.start))

/-- C19. Provided the ids of `data` are distinct, in every state the handlers
lead to from the state `initDashboard` leaves, `selectedData` holds no two
records with the same id; so it holds no record twice and is no longer than
`data`. -/
theorem selectedData_ids_nodup (synthetic : List Record) (s : State)
    (hid : (synthetic.map Record.id).Nodup) (h : Steps (initDashboard synthetic) s) :
    (s.selectedData.map Record.id).Nodup ∧
    (∀ d, s.selectedData.count d ≤ 1) ∧
    s.selectedData.length ≤ s.data.length := by
  have hnd := steps_nodup synthetic s hid h
  have hsub := steps_subset _ s (rendered_initDashboard synthetic) (fun d hd => hd) h
  refine ⟨hnd, ?_, ?_⟩
  · exact List.nodup_iff_count_le_one.mp (List.Nodup.of_map _ hnd)
  · exact ((List.Nodup.of_map _ hnd).subperm hsub).length_le

/-- The sample dashboard, whose ids are 0, 1 and 2, after two clicks on the
first circle and a click on the second. -/
theorem selectedData_ids_nodup_witness :
    ((pointClicked (pointClicked (pointClicked (initDashboard sampleData) 0) 0)
        1).selectedData.map Record.id).Nodup ∧
    (∀ d, (pointClicked (pointClicked (pointClicked (initDashboard sampleData) 0) 0)
        1).selectedData.count d ≤ 1) ∧
    (pointClicked (pointClicked (pointClicked (initDashboard sampleData) 0) 0)
        1).selectedData.length ≤
      (pointClicked (pointClicked (pointClicked (initDashboard sampleData) 0) 0)
        1).data.length :=
  selectedData_ids_nodup sampleData _ (Generated.nodup _ generated_sampleData)
    (Steps.click _ 1 (Steps.click _ 0 (Steps.click _ 0 Steps.start)))

end Homework3

namespace Homework3

/-! ## The info box -/

/-- With distinct ids in `data` and in a selection taken from `data`, the two
arrays have the same length exactly when they hold the same ids. -/
theorem length_eq_iff_ids_eq (sel data : List Record)
    (hsel : (sel.map Record.id).Nodup) (hdata : (data.map Record.id).Nodup)
    (hsub : ∀ d ∈ sel, d ∈ data) :
    sel.length = data.length ↔
      (sel.map Record.id).toFinset = (data.map Record.id).toFinset := by
  have hcs : (sel.map Record.id).toFinset.card = sel.length := by
    rw [List.toFinset_card_of_nodup hsel, List.length_map]
  have hcd : (data.map Record.id).toFinset.card = data.length := by
    rw [List.toFinset_card_of_nodup hdata, List.length_map]
  have hss : (sel.map Record.id).toFinset ⊆ (data.map Record.id).toFinset := by
    intro i hi
    rw [List.mem_toFinset] at hi ⊢
    obtain ⟨d, hd, rfl⟩ := List.mem_map.mp hi
    exact List.mem_map_of_mem _ (hsub d hd)
  constructor
  · intro hlen
    apply Finset.eq_of_subset_of_card_le hss
    rw [hcs, hcd, hlen]
  · intro heq
    rw [← hcs, ← hcd, heq]

/-- C18. In every reachable state `updateSelectionInfo` hides the info box
exactly when the ids in `selectedData` are the ids in `data`; otherwise it
shows "Selected k of n individuals", with k the number of selected records and
n the size of the dataset. -/
theorem updateSelectionInfo_hidden_iff (s : State) (h : Reachable s) :
    (updateSelectionInfo s = none ↔
      (s.selectedData.map Record.id).toFinset = (s.data.map Record.id).toFinset) ∧
    ((s.selectedData.map Record.id).toFinset ≠ (s.data.map Record.id).toFinset →
      updateSelectionInfo s =
        some ("Selected " ++ toString s.selectedData.length ++ " of " ++
          toString s.data.length ++ " individuals")) := by
  obtain ⟨synthetic, hgen, hsteps⟩ := h
  have hid := Generated.nodup synthetic hgen
  have hnd := steps_nodup synthetic s hid hsteps
  have hsub := steps_subset _ s (rendered_initDashboard synthetic) (fun d hd => hd) hsteps
  have hdata : (s.data.map Record.id).Nodup := by
    rw [steps_data _ s hsteps]
    exact hid
  have hiff := length_eq_iff_ids_eq s.selectedData s.data hnd hdata hsub
  constructor
  · rw [← hiff]
    unfold updateSelectionInfo
    split_ifs with hlen
    · simp [hlen]
    · simp [hlen]
  · intro hne
    have hlen : ¬ s.selectedData.length = s.data.length := fun e => hne (hiff.mp e)
    unfold updateSelectionInfo
    rw [if_neg hlen]

/-- The sample dashboard after two clicks on the first circle: two of the
three records are selected and the box says so. -/
theorem updateSelectionInfo_hidden_iff_witness :
    Reachable (pointClicked (pointClicked (initDashboard sampleData) 0) 0) ∧
    updateSelectionInfo (pointClicked (pointClicked (initDashboard sampleData) 0) 0) =
      some "Selected 2 of 3 individuals" ∧
    (updateSelectionInfo (pointClicked (pointClicked (initDashboard sampleData) 0) 0) = none ↔
      ((pointClicked (pointClicked (initDashboard sampleData) 0) 0).selectedData.map
          Record.id).toFinset =
        ((pointClicked (pointClicked (initDashboard sampleData) 0) 0).data.map
          Record.id).toFinset) := by
  have hreach : Reachable (pointClicked (pointClicked (initDashboard sampleData) 0) 0) :=
    ⟨sampleData, generated_sampleData, Steps.click _ 0 (Steps.click _ 0 Steps.start)⟩
  refine ⟨hreach, ?_, (updateSelectionInfo_hidden_iff _ hreach).1⟩
  simp [updateSelectionInfo, pointClicked, initDashboard, sampleData, person, List.filter_cons]
  decide

end Homework3

namespace Homework3

/-! ## Clicking when the flags agree with the selection -/

/-- A circle of the page after the flag of the `i`-th was set is that circle,
or a circle at another position that was there before. -/
theorem mem_set_cases (pts : List Point) (i : Nat) (p new q : Point)
    (hp : pts.get? i = some p) (hq : q ∈ pts.set i new) :
    q = new ∨ ∃ j, j ≠ i ∧ pts.get? j = some q := by
  induction pts generalizing i with
  | nil => simp at hp
  | cons a as ih =>
    cases i with
    | zero =>
      simp only [List.set_cons_zero, List.mem_cons] at hq
      rcases hq with h | h
      · exact Or.inl h
      · obtain ⟨n, hn⟩ := List.mem_iff_get?.mp h
        exact Or.inr ⟨n + 1, by omega, by simpa using hn⟩
    | succ k =>
      simp only [List.set_cons_succ, List.mem_cons] at hq
      rcases hq with h | h
      · exact Or.inr ⟨0, by omega, by simp [h]⟩
      · have hp' : as.get? k = some p := by simpa using hp
        rcases ih k hp' h with h' | ⟨j, hj, hget⟩
        · exact Or.inl h'
        · exact Or.inr ⟨j + 1, by omega, by simpa using hget⟩

/-- Setting the flag of the `i`-th circle puts the new circle at `i`. -/
theorem get?_set_same (pts : List Point) (i : Nat) (p new : Point)
    (hp : pts.get? i = some p) : (pts.set i new).get? i = some new := by
  induction pts generalizing i with
  | nil => simp at hp
  | cons a as ih =>
    cases i with
    | zero => simp
    | succ k =>
      have hp' : as.get? k = some p := by simpa using hp
      simpa using ih k hp'

/-- Circles at different positions are bound to records with different ids,
when the ids of the bound records are distinct. -/
theorem datum_id_ne_of_ne (pts : List Point) (i j : Nat) (p q : Point)
    (hnd : ((pts.map Point.datum).map Record.id).Nodup)
    (hp : pts.get? i = some p) (hq : pts.get? j = some q) (hne : j ≠ i) :
    q.datum.id ≠ p.datum.id := by
  induction pts generalizing i j with
  | nil => simp at hp
  | cons a as ih =>
    simp only [List.map_cons, List.nodup_cons, List.mem_map] at hnd
    obtain ⟨hnot, hnd'⟩ := hnd
    cases i with
    | zero =>
      cases j with
      | zero => exact absurd rfl hne
      | succ m =>
        have hp' : a = p := by simpa using hp
        have hq' : as.get? m = some q := by simpa using hq
        intro heq
        apply hnot
        refine ⟨q.datum, ⟨q, List.get?_mem hq', rfl⟩, ?_⟩
        rw [heq, hp']
    | succ k =>
      have hp' : as.get? k = some p := by simpa using hp
      cases j with
      | zero =>
        have hq' : a = q := by simpa using hq
        intro heq
        apply hnot
        refine ⟨p.datum, ⟨p, List.get?_mem hp', rfl⟩, ?_⟩
        rw [← heq, hq']
      | succ m =>
        have hq' : as.get? m = some q := by simpa using hq
        exact ih k m (by simpa using hnd') hp' hq' (by omega)

end Homework3

namespace Homework3

/-- The handler body flips the flag. -/
theorem pointClickedOn_flag (sel : List Record) (b : Bool) (d : Record) :
    (pointClickedOn sel b d).1 = !b := by
  unfold pointClickedOn
  cases b <;> simp

/-- On a page where the flags agree with a selection taken from `data`, whose
ids are distinct, a click flips the membership of the clicked record and of no
other record of `data`. -/
theorem mem_pointClicked_of_agree (s : State) (i : Nat) (p : Point)
    (hr : Rendered s) (hid : (s.data.map Record.id).Nodup)
    (hsub : ∀ d ∈ s.selectedData, d ∈ s.data) (ha : Agree s)
    (hp : s.points.get? i = some p) (d : Record) (hd : d ∈ s.data) :
    d ∈ (pointClicked s i).selectedData ↔
      (d = p.datum ∧ d ∉ s.selectedData) ∨ (d ≠ p.datum ∧ d ∈ s.selectedData) := by
  have hpd : p.datum ∈ s.data := by
    rw [← hr]
    exact List.mem_map_of_mem _ (List.get?_mem hp)
  have hinj := List.inj_on_of_nodup_map hid
  have hflag : p.selected = true ↔ p.datum ∈ s.selectedData := ha p (List.get?_mem hp)
  rw [pointClicked_selectedData s i p hp]
  unfold pointClickedOn
  cases hs : p.selected with
  | true =>
    have hin : p.datum ∈ s.selectedData := hflag.mp hs
    simp only [if_true, List.mem_filter, bne_iff_ne, ne_eq]
    constructor
    · rintro ⟨hmem, hne⟩
      exact Or.inr ⟨fun e => hne (by rw [e]), hmem⟩
    · rintro (⟨rfl, hnot⟩ | ⟨hne, hmem⟩)
      · exact absurd hin hnot
      · exact ⟨hmem, fun e => hne (hinj hd hpd e)⟩
  | false =>
    have hout : p.datum ∉ s.selectedData := fun h => by
      rw [← hflag, hs] at h
      exact Bool.false_ne_true h
    have hfind : ¬ (s.selectedData.find? fun item => item.id == p.datum.id).isSome = true := by
      rw [List.find?_isSome]
      rintro ⟨x, hx, hxid⟩
      have : x = p.datum := hinj (hsub x hx) hpd (by simpa using hxid)
      exact hout (this ▸ hx)
    simp only [Bool.false_eq_true, if_false, hfind, List.mem_append, List.mem_singleton]
    constructor
    · rintro (hmem | rfl)
      · exact Or.inr ⟨fun e => hout (e ▸ hmem), hmem⟩
      · exact Or.inl ⟨rfl, hout⟩
    · rintro (⟨rfl, _⟩ | ⟨_, hmem⟩)
      · exact Or.inr rfl
      · exact Or.inl hmem

/-- On such a page a click leaves the flags in agreement with the
selection. -/
theorem agree_pointClicked (s : State) (i : Nat) (p : Point)
    (hr : Rendered s) (hid : (s.data.map Record.id).Nodup)
    (hsub : ∀ d ∈ s.selectedData, d ∈ s.data) (ha : Agree s)
    (hp : s.points.get? i = some p) : Agree (pointClicked s i) := by
  have hmem := mem_pointClicked_of_agree s i p hr hid hsub ha hp
  have hpd : p.datum ∈ s.data := by
    rw [← hr]
    exact List.mem_map_of_mem _ (List.get?_mem hp)
  have hflag : p.selected = true ↔ p.datum ∈ s.selectedData := ha p (List.get?_mem hp)
  intro q hq
  rw [pointClicked_points s i p hp] at hq
  rcases mem_set_cases _ _ _ _ _ hp hq with rfl | ⟨j, hj, hget⟩
  · show (pointClickedOn s.selectedData p.selected p.datum).1 = true ↔
      p.datum ∈ (pointClicked s i).selectedData
    rw [pointClickedOn_flag, hmem p.datum hpd]
    cases hs : p.selected with
    | true =>
      have hin : p.datum ∈ s.selectedData := hflag.mp hs
      simp [hin]
    | false =>
      have hout : p.datum ∉ s.selectedData := fun h => by
        rw [← hflag, hs] at h
        exact Bool.false_ne_true h
      simp [hout]
  · have hqd : q.datum ∈ s.data := by
      rw [← hr]
      exact List.mem_map_of_mem _ (List.get?_mem hget)
    have hidne : q.datum.id ≠ p.datum.id :=
      datum_id_ne_of_ne s.points i j p q (by rw [hr]; exact hid) hp hget hj
    have hne : q.datum ≠ p.datum := fun e => hidne (by rw [e])
    rw [hmem q.datum hqd, ha q (List.get?_mem hget)]
    simp [hne]

/-- After a rectangle brush on a rendered page the flags agree with the
selection. -/
theorem agree_brushed (s : State) (r : Rect) (hr : Rendered s) :
    Agree (brushed s (some r)) := by
  intro q hq
  have hpts : (brushed s (some r)).points =
      s.points.map fun p => { p with selected := insideBrush s r p.datum } := by
    simp [brushed, foldl_brushStep]
  rw [hpts] at hq
  obtain ⟨p, hp, rfl⟩ := List.mem_map.mp hq
  rw [brushed_some_selectedData s r hr, List.mem_filter]
  have hpd : p.datum ∈ s.data := by
    rw [← hr]
    exact List.mem_map_of_mem _ hp
  simp [hpd]

end Homework3

namespace Homework3

/-- C20. In a reachable state where a circle is flagged exactly when its record
is in `selectedData`, a click on a circle removes its record if it is selected
and adds it otherwise, leaves the membership of the other records alone,
keeps the flags in agreement, and a second click on the same circle brings
back the original set of selected ids.  A rectangle brush leaves such a
state. -/
theorem pointClicked_toggles_when_flags_agree (s : State) (i : Nat) (p : Point)
    (hreach : Reachable s) (ha : Agree s) (hp : s.points.get? i = some p) :
    (p.datum ∈ s.selectedData → p.datum ∉ (pointClicked s i).selectedData) ∧
    (p.datum ∉ s.selectedData → p.datum ∈ (pointClicked s i).selectedData) ∧
    (∀ d ∈ s.data, d ≠ p.datum →
      (d ∈ (pointClicked s i).selectedData ↔ d ∈ s.selectedData)) ∧
    Agree (pointClicked s i) ∧
    ((pointClicked (pointClicked s i) i).selectedData.map Record.id).toFinset =
      (s.selectedData.map Record.id).toFinset ∧
    (∀ r, Agree (brushed s (some r))) := by
  obtain ⟨synthetic, hgen, hsteps⟩ := hreach
  have hr : Rendered s := steps_rendered _ s (rendered_initDashboard synthetic) hsteps
  have hid : (s.data.map Record.id).Nodup := by
    rw [steps_data _ s hsteps]
    exact Generated.nodup synthetic hgen
  have hsub := steps_subset _ s (rendered_initDashboard synthetic) (fun d hd => hd) hsteps
  have hmem := mem_pointClicked_of_agree s i p hr hid hsub ha hp
  have hpd : p.datum ∈ s.data := by
    rw [← hr]
    exact List.mem_map_of_mem _ (List.get?_mem hp)
  have ha1 : Agree (pointClicked s i) := agree_pointClicked s i p hr hid hsub ha hp
  have hr1 : Rendered (pointClicked s i) := rendered_pointClicked s i hr
  have hsub1 := subset_pointClicked s i hr hsub
  have hp1 : (pointClicked s i).points.get? i =
      some { p with selected := (pointClickedOn s.selectedData p.selected p.datum).1 } := by
    rw [pointClicked_points s i p hp]
    exact get?_set_same _ _ _ _ hp
  have hmem2 := mem_pointClicked_of_agree (pointClicked s i) i _ hr1
    (by rw [pointClicked_data]; exact hid) hsub1 ha1 hp1
  have hsub2 := subset_pointClicked (pointClicked s i) i hr1 hsub1
  have hback : ∀ d, d ∈ (pointClicked (pointClicked s i) i).selectedData ↔
      d ∈ s.selectedData := by
    intro d
    constructor
    · intro h2
      have hd : d ∈ s.data := by
        have := hsub2 d h2
        rwa [pointClicked_data, pointClicked_data] at this
      have h := (hmem2 d (by rw [pointClicked_data]; exact hd)).mp h2
      rw [hmem d hd] at h
      by_cases hdp : d = p.datum
      · rcases h with ⟨_, hnot⟩ | ⟨hne, _⟩
        · by_contra hns
          exact hnot (Or.inl ⟨hdp, hns⟩)
        · exact absurd hdp hne
      · rcases h with ⟨heq, _⟩ | ⟨_, h1⟩
        · exact absurd heq hdp
        · rcases h1 with ⟨heq, _⟩ | ⟨_, hin⟩
          · exact absurd heq hdp
          · exact hin
    · intro h0
      have hd : d ∈ s.data := hsub d h0
      rw [hmem2 d (by rw [pointClicked_data]; exact hd), hmem d hd]
      by_cases hdp : d = p.datum
      · refine Or.inl ⟨hdp, ?_⟩
        rintro (⟨_, hnot⟩ | ⟨hne, _⟩)
        · exact hnot h0
        · exact hne hdp
      · exact Or.inr ⟨hdp, Or.inr ⟨hdp, h0⟩⟩
  refine ⟨?_, ?_, ?_, ha1, ?_, fun r => agree_brushed s r hr⟩
  · intro hin hin'
    rcases (hmem p.datum hpd).mp hin' with ⟨_, hnot⟩ | ⟨hne, _⟩
    · exact hnot hin
    · exact hne rfl
  · intro hout
    exact (hmem p.datum hpd).mpr (Or.inl ⟨rfl, hout⟩)
  · intro d hd hne
    rw [hmem d hd]
    constructor
    · rintro (⟨heq, _⟩ | ⟨_, hin⟩)
      · exact absurd heq hne
      · exact hin
    · intro hin
      exact Or.inr ⟨hne, hin⟩
  · ext x
    simp only [List.mem_toFinset, List.mem_map, hback]

end Homework3

namespace Homework3

/-- The brushed sample dashboard: its first circle is flagged and its record
selected; a click removes the record, and a second click brings the selected
ids back. -/
theorem pointClicked_toggles_when_flags_agree_witness :
    Reachable brushedSample ∧ Agree brushedSample ∧
    brushedSample.points.get? 0 = some ⟨person 0 1 2, true⟩ ∧
    (person 0 1 2 ∈ brushedSample.selectedData →
      person 0 1 2 ∉ (pointClicked brushedSample 0).selectedData) ∧
    Agree (pointClicked brushedSample 0) ∧
    ((pointClicked (pointClicked brushedSample 0) 0).selectedData.map Record.id).toFinset =
      (brushedSample.selectedData.map Record.id).toFinset := by
  have hreach : Reachable brushedSample :=
    ⟨sampleData, generated_sampleData, Steps.brush _ _ Steps.start⟩
  have hagree : Agree brushedSample :=
    agree_brushed _ _ (rendered_initDashboard sampleData)
  have hp : brushedSample.points.get? 0 = some ⟨person 0 1 2, true⟩ := by
    simp [brushedSample, brushed, initDashboard, sampleData, brushStep, insideBrush,
      setupXScale, setupYScale, d3max, scaleLinear, person, Record.get, JSNum.ge, JSNum.le,
      overviewWidth, overviewHeight]
    norm_num
  have h := pointClicked_toggles_when_flags_agree brushedSample 0 _ hreach hagree hp
  exact ⟨hreach, hagree, hp, h.1, h.2.2.2.1, h.2.2.2.2.1⟩

/-! ## Clicking with a record that is not in the dataset -/

/-- C14, as stated, fails: run on an unflagged element with a record of id 7,
which no record of the sample dataset has, the body of `pointClicked` raises
nothing and appends the record to `selectedData`. -/
theorem pointClickedOn_adds_foreign_record :
    (∀ d ∈ (initDashboard sampleData).data, d.id ≠ (person 7 1 1).id) ∧
    pointClickedOn (initDashboard sampleData).selectedData false (person 7 1 1) =
      (true, sampleData ++ [person 7 1 1]) := by
  constructor
  · intro d hd
    simp only [initDashboard, sampleData, List.mem_cons, List.mem_singleton,
      List.not_mem_nil, or_false] at hd
    rcases hd with rfl | rfl | rfl <;> simp [person]
  · simp [pointClickedOn, initDashboard, sampleData, person]

/-- C14, amended. `pointClicked` checks no identity and raises no error: run
on an unflagged element with a record whose id no record of `data` has, it
appends the record to `selectedData`, and on a flagged element it leaves
`selectedData` as it was.  On the circles of the page, which are all it is
bound to, a click leaves every selected record a record of `data`. -/
theorem pointClicked_no_identity_check (s : State) (d : Record) (hr : Rendered s)
    (hsub : ∀ x ∈ s.selectedData, x ∈ s.data) (hforeign : ∀ x ∈ s.data, x.id ≠ d.id) :
    pointClickedOn s.selectedData false d = (true, s.selectedData ++ [d]) ∧
    pointClickedOn s.selectedData true d = (false, s.selectedData) ∧
    (∀ i, ∀ x ∈ (pointClicked s i).selectedData, x ∈ s.data) := by
  have hnone : ∀ x ∈ s.selectedData, x.id ≠ d.id := fun x hx => hforeign x (hsub x hx)
  refine ⟨?_, ?_, ?_⟩
  · have hfind : ¬ (s.selectedData.find? fun item => item.id == d.id).isSome = true := by
      rw [List.find?_isSome]
      rintro ⟨x, hx, hxid⟩
      exact hnone x hx (by simpa using hxid)
    simp [pointClickedOn, hfind]
  · have hall : s.selectedData.filter (fun item => item.id != d.id) = s.selectedData := by
      rw [List.filter_eq_self]
      intro x hx
      simpa using hnone x hx
    simp [pointClickedOn, hall]
  · intro i x hx
    have := subset_pointClicked s i hr hsub x hx
    rwa [pointClicked_data] at this

/-- The sample dashboard and a record of id 7. -/
theorem pointClicked_no_identity_check_witness :
    pointClickedOn (initDashboard sampleData).selectedData false (person 7 1 1) =
      (true, (initDashboard sampleData).selectedData ++ [person 7 1 1]) ∧
    pointClickedOn (initDashboard sampleData).selectedData true (person 7 1 1) =
      (false, (initDashboard sampleData).selectedData) ∧
    (∀ i, ∀ x ∈ (pointClicked (initDashboard sampleData) i).selectedData,
      x ∈ (initDashboard sampleData).data) :=
  pointClicked_no_identity_check (initDashboard sampleData) (person 7 1 1)
    (rendered_initDashboard sampleData) (fun x hx => hx) (by
      intro x hx
      simp only [initDashboard, sampleData, List.mem_cons, List.mem_singleton,
        List.not_mem_nil, or_false] at hx
      rcases hx with rfl | rfl | rfl <;> simp [person])

end Homework3

namespace Homework3

/-! ## The row filter -/

/-- C16, evaluated where it fails: a row with age 18, 0 hours per day and the
four scores 3 has all six required fields present, and the filter of
`loadCSVData` drops it (as it drops a row of age 0); the rows it keeps do have
the six fields present. -/
theorem rowFilter_drops_zero_hours :
    allRequiredPresent (surveyRow 18 0 3) = true ∧
    rowFilter (surveyRow 18 0 3) = false ∧
    allRequiredPresent (surveyRow 0 2 3) = true ∧
    rowFilter (surveyRow 0 2 3) = false ∧
    rowFilter (surveyRow 18 2 0) = true ∧
    (∀ row, rowFilter row = true → allRequiredPresent row = true) := by
  refine ⟨by simp [allRequiredPresent, surveyRow, JSValue.present],
    by simp [rowFilter, surveyRow, JSValue.truthy],
    by simp [allRequiredPresent, surveyRow, JSValue.present],
    by simp [rowFilter, surveyRow, JSValue.truthy],
    by simp [rowFilter, surveyRow, JSValue.truthy, JSValue.present], ?_⟩
  intro row h
  have htp : ∀ v : JSValue, v.truthy = true → v.present = true := by
    intro v hv
    cases v <;> simp_all [JSValue.truthy, JSValue.present]
  simp only [rowFilter, Bool.and_eq_true] at h
  simp only [allRequiredPresent, Bool.and_eq_true]
  exact ⟨⟨⟨⟨⟨htp _ h.1.1.1.1.1, htp _ h.1.1.1.1.2⟩, h.1.1.1.2⟩, h.1.1.2⟩, h.1.2⟩, h.2⟩

end Homework3

namespace Homework2

/-! ## The value shown per guardian -/

/-- C17, evaluated where it fails: for the sample guardians other, mother,
father, mother the chart shows 3, 8 and 4, the sums per guardian, while the
average alcohol use of the two records with guardian mother is 4. -/
theorem guardianGroups_shows_sum_not_average :
    (drawPieChartByGuardian sampleGuardians).2 =
      [⟨"other", 3⟩, ⟨"mother", 8⟩, ⟨"father", 4⟩] ∧
    averageAlcoholUse sampleGuardians "mother" = JSNum.fin 4 ∧
    averageAlcoholUse sampleGuardians "other" = JSNum.fin 3 ∧
    averageAlcoholUse sampleGuardians "father" = JSNum.fin 4 := by
  refine ⟨?_, ?_, ?_, ?_⟩
  · simp [drawPieChartByGuardian, guardianGroups, nestGroups, nestPush, sampleGuardians,
      student, d3sum]
    norm_num
  · decide!
  · decide!
  · decide!

end Homework2
